import Mathlib

/-!
Verification of the coordination core of the Agentic-local repository:
the swarm manager (consensus engine, topology manager, task dispatch) and
the QUAD manager (DAG construction and execution), plus two solver-toolbox
algorithms (binary search and the count-min sketch).

Each JavaScript function is shallowly embedded as a Lean definition that
follows the source line by line; stateful methods become explicit state
passing, JavaScript numbers used as counters/indices become Nat, the
floating-point consensus threshold comparison is modelled over ℚ, and the
external LLM gateway call (an opaque collaborator behind fetch) is a
function parameter.
-/

/-! ## Consensus engine (swarm-manager achieveConsensus)

The source serialises every agent result with JSON.stringify, counts the
serialised strings in an insertion-ordered Map, scans the Map entries for
the first strictly larger count, and finally parses the winning string
back.  Values are therefore compared exactly by their JSON serialisation;
we model the serialised forms directly as an arbitrary type with decidable
equality (JSON.stringify is injective up to JSON-value equality, and
JSON.parse recovers the value from its serialisation). -/

/-- Result shape of achieveConsensus. -/
structure ConsensusResult (V : Type) where
  achieved : Bool
  confidence : ℚ
  result : Option V
  votes : Nat
  total : Nat
  deriving Repr, DecidableEq

/-- One step of building the counts Map:
counts.set(response, (counts.get(response) || 0) + 1).
A JavaScript Map updates an existing key in place (keeping its position)
and appends a new key at the end. -/
def bumpCount {V : Type} [DecidableEq V] (m : List (V × Nat)) (v : V) :
    List (V × Nat) :=
  if m.any (fun p => decide (p.1 = v)) then
    m.map (fun p => if p.1 = v then (p.1, p.2 + 1) else p)
  else
    m ++ [(v, 1)]

/-- The counts Map after inserting every response in order. -/
def buildCounts {V : Type} [DecidableEq V] (results : List V) :
    List (V × Nat) :=
  results.foldl bumpCount []

/-- One step of the maxCount/consensusValue scan:
if (count > maxCount) update both. -/
def scanStep {V : Type} (acc : Nat × Option V) (p : V × Nat) :
    Nat × Option V :=
  if acc.1 < p.2 then (p.2, some p.1) else acc

/-- The maxCount/consensusValue scan over the counts entries, starting from
maxCount = 0, consensusValue = null. -/
def scanMax {V : Type} (m : List (V × Nat)) : Nat × Option V :=
  m.foldl scanStep (0, none)

/-- achieveConsensus(results, threshold) from the swarm manager.
The division maxCount / results.length and its comparison with the
threshold are modelled over ℚ. -/
def achieveConsensus {V : Type} [DecidableEq V] (results : List V)
    (threshold : ℚ) : ConsensusResult V :=
  let counts := buildCounts results
  let mc := scanMax counts
  { achieved := decide (threshold ≤ (mc.1 : ℚ) / (results.length : ℚ))
    confidence := (mc.1 : ℚ) / (results.length : ℚ)
    result := mc.2
    votes := mc.1
    total := results.length }

/-- Specification-side quantity: the largest number of occurrences of any
single value in the list. -/
def maxOcc {V : Type} [DecidableEq V] (results : List V) : Nat :=
  (results.map (fun r => results.count r)).foldr max 0

/-! Lemmas about buildCounts.  We first characterise the counts Map as the
first-occurrence deduplication of the input paired with final counts. -/

/-- First-occurrence deduplication (the key order of a JavaScript Map). -/
def dedupFirst {V : Type} [DecidableEq V] : List V → List V
  | [] => []
  | a :: l => a :: dedupFirst (l.filter (fun x => !decide (x = a)))
  termination_by l => l.length
  decreasing_by
    simp only [List.length_cons]
    exact Nat.lt_succ_of_le (List.length_filter_le _ _)

/-- The largest count stored in the counts Map. -/
def maxSnd {V : Type} (m : List (V × Nat)) : Nat :=
  (m.map Prod.snd).foldr max 0

/-! ## Swarm topology manager (swarm-manager createSwarm, addAgent,
updateTopologyConnections)

Agents keep only the fields the claims touch (id, role, connections); the
random id suffixes produced by Math.random are supplied as explicit
arguments, and the unused metrics/messageQueue fields are omitted. -/

/-- An agent of a swarm (id, role and the derived connections list). -/
structure SwarmAgent where
  id : String
  role : String
  connections : List String
  deriving Repr, DecidableEq

instance : Inhabited SwarmAgent := ⟨⟨"", "", []⟩⟩

/-- A swarm: topology name, optional coordinator agent id, ordered agent
roster, capacity and consensus threshold. -/
structure Swarm where
  topology : String
  coordinator : Option String
  agents : List SwarmAgent
  maxAgents : Nat
  consensusThreshold : ℚ
  deriving Repr

/-- The id stored at index i of the roster, if the index is in range
(models the JavaScript agents[i] access). -/
def agentIdAt (agents : List SwarmAgent) (i : Nat) : Option String :=
  (agents.get? i).map (fun a => a.id)

/-- Hierarchical-topology connections of the agent at index i: parent at
(i-1)/2 when i > 0, children at 2i+1 and 2i+2 when present. -/
def hierConns (agents : List SwarmAgent) (i : Nat) : List String :=
  (if i = 0 then [] else (agentIdAt agents ((i - 1) / 2)).toList) ++
  (agentIdAt agents (2 * i + 1)).toList ++
  (agentIdAt agents (2 * i + 2)).toList

/-- Ring-topology connections of the agent at index i: the agents at
(i-1+n) mod n and (i+1) mod n.  The JavaScript (i - 1 + n) % n over
integers is written (i + n - 1) % n so that Nat subtraction never
truncates. -/
def ringConns (agents : List SwarmAgent) (i : Nat) : List String :=
  (agentIdAt agents ((i + agents.length - 1) % agents.length)).toList ++
  (agentIdAt agents ((i + 1) % agents.length)).toList

/-- All other agents' ids (used by the mesh case and by the star hub):
agents.filter(a => a.id !== agent.id).map(a => a.id). -/
def otherIds (agents : List SwarmAgent) (a : SwarmAgent) : List String :=
  (agents.filter (fun b => !decide (b.id = a.id))).map (fun b => b.id)

/-- updateTopologyConnections(swarm): recompute every agent's connections
from the current roster according to the topology; a topology that is not
one of the four cases (e.g. hybrid) leaves connections unchanged, like the
switch without a default branch. -/
def updateTopologyConnections (s : Swarm) : Swarm :=
  if s.topology = "mesh" then
    { s with agents := s.agents.map (fun a =>
        { a with connections := otherIds s.agents a }) }
  else if s.topology = "star" then
    match (s.agents.find? (fun a =>
        decide (s.coordinator = some a.id))).orElse
        (fun _ => s.agents.head?) with
    | none => s
    | some hub =>
      { s with agents := s.agents.map (fun a =>
          if a.id = hub.id then { a with connections := otherIds s.agents a }
          else { a with connections := [hub.id] }) }
  else if s.topology = "hierarchical" then
    { s with agents := s.agents.mapIdx (fun i a =>
        { a with connections := hierConns s.agents i }) }
  else if s.topology = "ring" then
    { s with agents := s.agents.mapIdx (fun i a =>
        { a with connections := ringConns s.agents i }) }
  else s

/-- A role of a swarm specification. -/
structure SwarmRole where
  name : String
  isCoordinator : Bool
  deriving Repr, DecidableEq

/-- createSwarmAgent(swarmId, role) with the generated id supplied:
the fresh agent starts with empty connections. -/
def createSwarmAgent (freshId : String) (roleName : String) : SwarmAgent :=
  { id := freshId, role := roleName, connections := [] }

/-- createSwarm(spec): builds the roster from the role list (one generated
id per role, supplied here as the ids argument) and records the last role
flagged isCoordinator as the coordinator.  Note that the source never
calls updateTopologyConnections here: every created agent keeps its empty
connections list. -/
def createSwarm (topology : String) (roles : List SwarmRole)
    (ids : List String) (maxAgents : Nat) (threshold : ℚ) : Swarm :=
  { topology := topology
    coordinator := (roles.zip ids).foldl
      (fun acc p => if p.1.isCoordinator then some p.2 else acc) none
    agents := (roles.zip ids).map
      (fun p => createSwarmAgent p.2 p.1.name)
    maxAgents := maxAgents
    consensusThreshold := threshold }

/-- addAgent(swarmId, agentSpec): rejects a full roster, otherwise appends
a fresh agent and recomputes every connection via
updateTopologyConnections. -/
def addAgent (s : Swarm) (roleName : String) (freshId : String) :
    Except String Swarm :=
  if s.maxAgents ≤ s.agents.length then
    Except.error "Swarm is at maximum capacity"
  else
    Except.ok (updateTopologyConnections
      { s with agents := s.agents ++ [createSwarmAgent freshId roleName] })

/-! ## QUAD manager: DAG model

The quad-manager keeps a Map of nodes with mutable state/result fields.
We split it into the static graph (Dag) and the mutable run state
(DagRun: per-node state strings plus the committed results map), threaded
explicitly.  The LLM gateway behind executeLLMNode is an external
collaborator and is passed in as a function argument. -/

/-- A JavaScript value, as far as the scheduler stores and passes them. -/
inductive JSValue where
  | vUndef : JSValue
  | vNull : JSValue
  | vBool : Bool → JSValue
  | vNum : Int → JSValue
  | vStr : String → JSValue
  | vArr : List JSValue → JSValue
  | vObj : List (String × JSValue) → JSValue

/-- Key lookup in an association list, i.e. Map.get (undefined becomes
none). -/
def lookupKV {α : Type} (l : List (String × α)) (k : String) : Option α :=
  (l.find? (fun p => decide (p.1 = k))).map (fun p => p.2)

/-- Map.set: an existing key is updated in place, a new key is appended. -/
def setKV {α : Type} (l : List (String × α)) (k : String) (v : α) :
    List (String × α) :=
  if l.any (fun p => decide (p.1 = k)) then
    l.map (fun p => if p.1 = k then (p.1, v) else p)
  else l ++ [(k, v)]

/-- Static data of one DAG node (the mutable state/result fields live in
DagRun).  The handler receives the gathered inputs and the node config. -/
structure DagNode where
  id : String
  type : String
  config : JSValue
  handler : Option (List (String × JSValue) → JSValue →
    Except String JSValue)
  dependencies : List String
  dependents : List String

/-- The static part of a DAG: its node Map (as an insertion-ordered list
with unique keys) and its edge list. -/
structure Dag where
  nodes : List DagNode
  edges : List (String × String)

/-- Mutable state of one DAG run: the per-node state strings and the
results Map. -/
structure DagRun where
  states : List (String × String)
  results : List (String × JSValue)

/-- The state string of a node (nodes never created by createDAG have no
entry; JavaScript would throw a TypeError on reading .state of undefined,
which graphs built by createDAG never reach because dependencies are only
wired between existing nodes). -/
def stateOf (run : DagRun) (id : String) : String :=
  (lookupKV run.states id).getD "missing"

/-- The initial run state: every node pending, no results. -/
def initRun (g : Dag) : DagRun :=
  { states := g.nodes.map (fun n => (n.id, "pending")), results := [] }

/-- Errors of the DAG scheduler (the source throws plain Error objects;
these constructors name the four distinct throw sites). -/
inductive DagError where
  | nodeNotFound : String → DagError
  | depNotCompleted : String → String → DagError
  | handlerFailure : String → String → DagError
  | cyclicDependency : DagError
  deriving Repr, DecidableEq

/-- The structural pass-through result of a handler-less node:
the object containing the gathered inputs plus the node's id. -/
def passThrough (inputs : List (String × JSValue)) (nodeId : String) :
    JSValue :=
  JSValue.vObj [("inputs", JSValue.vObj inputs), ("nodeId", JSValue.vStr nodeId)]

/-- Gather a map from each dependency id to its committed result
(inputs[depId] = dag.results.get(depId)). -/
def gatherInputs (run : DagRun) (deps : List String) :
    List (String × JSValue) :=
  deps.map (fun d => (d, (lookupKV run.results d).getD JSValue.vUndef))

/-- The three-way body of executeNode once dependencies are checked: the
declared handler; else, for type llm, the external gateway call
(executeLLMNode, abstracted as the llm argument); else the structural
pass-through. -/
def nodeBody (llm : String → List (String × JSValue) →
      Except String JSValue)
    (n : DagNode) (inputs : List (String × JSValue)) :
    Except String JSValue :=
  match n.handler with
  | some h => h inputs n.config
  | none =>
    if n.type = "llm" then llm n.id inputs
    else Except.ok (passThrough inputs n.id)

/-- executeNode(dag, nodeId): look the node up, fail if any dependency is
not completed (before touching any state), mark it running, gather inputs,
run the body; on success mark completed and commit the result, on failure
mark failed and propagate. -/
def executeNode (g : Dag)
    (llm : String → List (String × JSValue) → Except String JSValue)
    (run : DagRun) (nodeId : String) :
    DagRun × Except DagError JSValue :=
  match g.nodes.find? (fun n => decide (n.id = nodeId)) with
  | none => (run, Except.error (DagError.nodeNotFound nodeId))
  | some node =>
    match node.dependencies.find?
        (fun d => !decide (stateOf run d = "completed")) with
    | some d => (run, Except.error (DagError.depNotCompleted nodeId d))
    | none =>
      let run1 : DagRun :=
        { run with states := setKV run.states nodeId "running" }
      let inputs := gatherInputs run1 node.dependencies
      match nodeBody llm node inputs with
      | Except.ok r =>
        ({ states := setKV run1.states nodeId "completed",
           results := setKV run1.results nodeId r }, Except.ok r)
      | Except.error e =>
        ({ run1 with states := setKV run1.states nodeId "failed" },
         Except.error (DagError.handlerFailure nodeId e))

/-- Execute the listed nodes one at a time, stopping at the first error
(the for-await loop of executeDAG, and one parallel wave sequentialised:
under cooperative concurrency each executeNode body runs without
interleaving, and Promise.all propagates the first rejection). -/
def runSeq (g : Dag)
    (llm : String → List (String × JSValue) → Except String JSValue) :
    DagRun → List String → DagRun × Except DagError Unit
  | run, [] => (run, Except.ok ())
  | run, id :: rest =>
    match executeNode g llm run id with
    | (run1, Except.ok _) => runSeq g llm run1 rest
    | (run1, Except.error e) => (run1, Except.error e)

/-- The dependency list of a node id (empty when the id names no node,
which the depth-first traversal never hits on graphs built by createDAG).
-/
def depsOf (g : Dag) (id : String) : List String :=
  ((g.nodes.find? (fun n => decide (n.id = id))).map
    (fun n => n.dependencies)).getD []

/-- One depth-first visit of topologicalSort: skip a visited id, else mark
it visited, visit its dependencies, then emit it (post-order).  Recursion
depth is bounded by the number of unvisited ids, so fuel
g.nodes.length + 1 (supplied by topologicalSort) is never exhausted. -/
def visitF (g : Dag) : Nat → (List String × List String) → String →
    (List String × List String)
  | 0, s, _ => s
  | fuel + 1, (visited, out), id =>
    if id ∈ visited then (visited, out)
    else
      let s1 := (depsOf g id).foldl (visitF g fuel) (id :: visited, out)
      (s1.1, s1.2 ++ [id])

/-- topologicalSort(dag): depth-first post-order over all node ids. -/
def topologicalSort (g : Dag) : List String :=
  ((g.nodes.map (fun n => n.id)).foldl
    (visitF g (g.nodes.length + 1)) ([], [])).2

/-- executeDAG(dag): run the nodes in topological order; on success the
graph completes and the results Map is returned, on any error the graph is
marked failed and the error propagates. -/
def executeDAG (g : Dag)
    (llm : String → List (String × JSValue) → Except String JSValue) :
    DagRun × String × Except DagError (List (String × JSValue)) :=
  match runSeq g llm (initRun g) (topologicalSort g) with
  | (run, Except.ok _) => (run, "completed", Except.ok run.results)
  | (run, Except.error e) => (run, "failed", Except.error e)

/-- The ids of the nodes ready to execute: not completed and with every
dependency completed (the in-flight set is always empty at this point in
the sequentialised loop, since the wave below was fully awaited). -/
def readyNodes (g : Dag) (completed : List String) : List String :=
  (g.nodes.filter (fun n =>
    !decide (n.id ∈ completed) &&
      n.dependencies.all (fun d => decide (d ∈ completed)))).map
    (fun n => n.id)

/-- executeParallel(dag): repeatedly execute the whole ready set until all
nodes are completed; if nothing is ready and nothing is in flight, fail
with the circular-dependencies error.  completed is the JavaScript Set,
so its size is the number of distinct ids. -/
def runWaves (g : Dag)
    (llm : String → List (String × JSValue) → Except String JSValue)
    (run : DagRun) (completed : List String) :
    DagRun × Except DagError Unit :=
  if h : completed.dedup.length < g.nodes.length then
    if hne : readyNodes g completed = [] then
      (run, Except.error DagError.cyclicDependency)
    else
      match runSeq g llm run (readyNodes g completed) with
      | (run1, Except.ok _) =>
        runWaves g llm run1 (completed ++ readyNodes g completed)
      | (run1, Except.error e) => (run1, Except.error e)
  else (run, Except.ok ())
  termination_by g.nodes.length - completed.toFinset.card
  decreasing_by
    obtain ⟨r, hrmem⟩ := List.exists_mem_of_ne_nil _ hne
    obtain ⟨n0, hn0f, hn0id⟩ := List.mem_map.mp hrmem
    obtain ⟨hn0, hcond⟩ := List.mem_filter.mp hn0f
    have hrnew : r ∉ completed := by
      have h1 := (Bool.and_eq_true _ _).mp hcond |>.1
      rw [hn0id] at h1
      simpa using h1
    have hsub : completed.toFinset ⊂
        (completed ++ readyNodes g completed).toFinset := by
      constructor
      · intro x hx
        rw [List.mem_toFinset] at hx ⊢
        exact List.mem_append_left _ hx
      · intro hcontra
        have : r ∈ completed.toFinset := hcontra (by
          rw [List.mem_toFinset]
          exact List.mem_append_right _ hrmem)
        exact hrnew (List.mem_toFinset.mp this)
    have hcard := Finset.card_lt_card hsub
    have hguard : completed.toFinset.card < g.nodes.length := by
      rw [List.card_toFinset]
      exact h
    omega

/-- executeParallel, started like the source with an empty completed set
and the given run state. -/
def executeParallel (g : Dag)
    (llm : String → List (String × JSValue) → Except String JSValue)
    (run : DagRun) : DagRun × Except DagError Unit :=
  runWaves g llm run []

/-- A handler-less node of type llm. -/
def llmNode : DagNode where
  id := "n"
  type := "llm"
  config := JSValue.vObj []
  handler := none
  dependencies := []
  dependents := []

/-- A one-node graph whose node declares no handler but has type llm. -/
def llmNodeDag : Dag :=
  { nodes := [llmNode], edges := [] }

/-- A stub for the external LLM gateway collaborator. -/
def gatewayStub : String → List (String × JSValue) →
    Except String JSValue :=
  fun _ _ => Except.ok (JSValue.vStr "from-gateway")

/-- A handler-less node of ordinary task type. -/
def passNode : DagNode where
  id := "p"
  type := "task"
  config := JSValue.vObj []
  handler := none
  dependencies := []
  dependents := []

/-! ## createDAG -/

/-- A node entry of a graph specification. -/
structure DagSpecNode where
  id : String
  type : Option String
  config : Option JSValue
  handler : Option (List (String × JSValue) → JSValue →
    Except String JSValue)

/-- Whether some node of the list carries this id (Map.get truthiness). -/
def anyId (ns : List DagNode) (x : String) : Bool :=
  ns.any (fun m => decide (m.id = x))

/-- Map.set on the node Map: an existing key is replaced in place, a new
one appended. -/
def setNode (nodes : List DagNode) (n : DagNode) : List DagNode :=
  if anyId nodes n.id then
    nodes.map (fun m => if m.id = n.id then n else m)
  else nodes ++ [n]

/-- The fresh node built from one spec entry (state pending, no result,
empty dependency/dependent lists). -/
def specToNode (sn : DagSpecNode) : DagNode :=
  { id := sn.id, type := sn.type.getD "task",
    config := sn.config.getD (JSValue.vObj []), handler := sn.handler,
    dependencies := [], dependents := [] }

/-- The wiring an edge performs on one node object:
toNode.dependencies.push(edge.from) and
fromNode.dependents.push(edge.to); for a self-edge both pushes hit the
same object, which the sequential ite composition reproduces. -/
def wireOne (e : String × String) (m : DagNode) : DagNode :=
  let m1 := if m.id = e.2 then
    { m with dependencies := m.dependencies ++ [e.1] } else m
  if m1.id = e.1 then
    { m1 with dependents := m1.dependents ++ [e.2] } else m1

/-- Processing one edge of the spec: the dependency/dependent lists are
updated only when both endpoints name existing nodes; otherwise nothing
happens (the edge was already pushed unconditionally onto dag.edges). -/
def wireEdge (ns : List DagNode) (e : String × String) : List DagNode :=
  if anyId ns e.1 && anyId ns e.2 then ns.map (wireOne e) else ns

/-- createDAG(spec): insert every declared node into the Map, then process
the edges.  There is no validation and no failure: the function is total.
-/
def createDAG (specNodes : List DagSpecNode)
    (specEdges : List (String × String)) : Dag :=
  { nodes := specEdges.foldl wireEdge
      (specNodes.foldl (fun acc sn => setNode acc (specToNode sn)) [])
    edges := specEdges }

/-- Whether the spec declares a node with this id. -/
def declaredIn (specNodes : List DagSpecNode) (x : String) : Bool :=
  specNodes.any (fun m => decide (m.id = x))

/-- The dependencies an edge list adds to the node with the given id: the
sources of its incoming edges whose both endpoints name existing nodes. -/
def wiredDeps (ns : List DagNode) (es : List (String × String))
    (i : String) : List String :=
  (es.filter (fun e =>
    decide (e.2 = i) && anyId ns e.1 && anyId ns e.2)).map (fun e => e.1)

/-- The dependents an edge list adds to the node with the given id. -/
def wiredDependents (ns : List DagNode) (es : List (String × String))
    (i : String) : List String :=
  (es.filter (fun e =>
    decide (e.1 = i) && anyId ns e.1 && anyId ns e.2)).map (fun e => e.2)

/-- The cumulative wiring of an edge list on one node. -/
def wireAll (ns : List DagNode) (es : List (String × String))
    (m : DagNode) : DagNode :=
  { m with dependencies := m.dependencies ++ wiredDeps ns es m.id,
           dependents := m.dependents ++ wiredDependents ns es m.id }

/-- The node that createDAG builds for id b from the witness spec below. -/
def nodeBWired : DagNode where
  id := "b"
  type := "task"
  config := JSValue.vObj []
  handler := none
  dependencies := ["a"]
  dependents := []

/-- The two-node spec used to witness the createDAG characterisation. -/
def specAB : List DagSpecNode :=
  [⟨"a", none, none, none⟩, ⟨"b", none, none, none⟩]

/-- A dependency-free pass-through node that node b depends on. -/
def okNodeA : DagNode where
  id := "a"
  type := "task"
  config := JSValue.vObj []
  handler := none
  dependencies := []
  dependents := ["b"]

/-- A node whose handler always throws. -/
def boomNodeB : DagNode where
  id := "b"
  type := "task"
  config := JSValue.vObj []
  handler := some (fun _ _ => Except.error "boom")
  dependencies := ["a"]
  dependents := []

/-- The two-node graph a→b whose second node fails. -/
def failDag : Dag :=
  { nodes := [okNodeA, boomNodeB], edges := [("a", "b")] }

/-- A node with one dependency and no handler. -/
def cycNode (i d : String) : DagNode where
  id := i
  type := "task"
  config := JSValue.vObj []
  handler := none
  dependencies := [d]
  dependents := [d]

/-- The two-node cyclic graph a→b→a. -/
def cycDag : Dag :=
  { nodes := [cycNode "a" "b", cycNode "b" "a"],
    edges := [("a", "b"), ("b", "a")] }

/-! ## Swarm task dispatch (executeTask / executeMesh / executeStar /
executeHierarchical)

The per-agent task execution (executeAgentTask, the seam to the external
LLM gateway) is a function parameter, and the dispatch layer is generic in
the result/task value type; the object literals the source builds for the
hub and coordinator tasks (type aggregate / decompose / synthesize,
and decomposed.subtasks) are supplied as constructor parameters. -/

/-- Promise.all over already-settled outcomes: any rejection rejects the
whole batch (the first in list order in this sequential model), otherwise
every value is collected in order. -/
def promiseAll {E A : Type} : List (Except E A) → Except E (List A)
  | [] => Except.ok []
  | x :: xs =>
    match x with
    | Except.error e => Except.error e
    | Except.ok a => (promiseAll xs).map (fun l => a :: l)

/-- The hub/coordinator selection shared by the star and hierarchical
dispatch: agents.find(a => a.id === swarm.coordinator) || agents[0]. -/
def hubOf (s : Swarm) : Option SwarmAgent :=
  (s.agents.find? (fun a => decide (s.coordinator = some a.id))).orElse
    (fun _ => s.agents.head?)

/-- executeMesh: every agent runs the task concurrently (Promise.all) and
the consensus engine reconciles the results under the swarm threshold. -/
def executeMesh {V : Type} [DecidableEq V] (s : Swarm)
    (exec : SwarmAgent → V → Except String V) (task : V) :
    Except String (ConsensusResult V) :=
  (promiseAll (s.agents.map (fun a => exec a task))).map
    (fun results => achieveConsensus results s.consensusThreshold)

/-- executeStar: the spokes run the task concurrently, then the hub runs
the aggregate task built from the spoke results.  An agent-less swarm
would crash in JavaScript when the hub is used; modelled as an error. -/
def executeStar {V : Type} (s : Swarm)
    (exec : SwarmAgent → V → Except String V)
    (mkAggregate : List V → V) (task : V) : Except String V :=
  match hubOf s with
  | none => Except.error "TypeError: no agents"
  | some hub =>
    (promiseAll ((s.agents.filter (fun a => !decide (a.id = hub.id))).map
      (fun a => exec a task))).bind
      (fun spokeResults => exec hub (mkAggregate spokeResults))

/-- executeHierarchical: the coordinator runs the decompose task, the
resulting subtasks (decomposed.subtasks, falling back to [task]) are
assigned round-robin to the non-coordinator workers, and the coordinator
then runs the synthesize task over the collected subresults.  A missing
worker (empty worker list) would crash in JavaScript; modelled as an
error. -/
def executeHierarchical {V : Type} (s : Swarm)
    (exec : SwarmAgent → V → Except String V)
    (mkDecompose : V → V) (subtasksOf : V → Option (List V))
    (mkSynthesize : List V → V) (task : V) : Except String V :=
  match hubOf s with
  | none => Except.error "TypeError: no agents"
  | some coord =>
    (exec coord (mkDecompose task)).bind (fun decomposed =>
      (promiseAll ((((subtasksOf decomposed).getD [task]).enum).map
        (fun p =>
          ((s.agents.filter (fun a =>
              !decide (a.id = coord.id))).get?
              (p.1 % (s.agents.filter (fun a =>
                !decide (a.id = coord.id))).length)).elim
            (Except.error "TypeError: no workers")
            (fun w => exec w p.2)))).bind
        (fun results => exec coord (mkSynthesize results)))

/-- The value a dispatch returns: a consensus verdict (mesh) or a plain
agent result (star, hierarchical). -/
inductive DispatchResult (V : Type) where
  | consensus : ConsensusResult V → DispatchResult V
  | value : V → DispatchResult V

/-- executeTask(swarmId, task): route by topology (mesh doubles as the
default branch of the switch); on success the swarm returns to idle, on
any error the swarm state becomes error and the error is rethrown.  The
optional external ruv-swarm package is absent, so the local dispatch
always runs. -/
def executeTask {V : Type} [DecidableEq V] (s : Swarm)
    (exec : SwarmAgent → V → Except String V)
    (mkDecompose : V → V) (subtasksOf : V → Option (List V))
    (mkSynthesize : List V → V) (mkAggregate : List V → V) (task : V) :
    String × Except String (DispatchResult V) :=
  match (if s.topology = "hierarchical" then
      (executeHierarchical s exec mkDecompose subtasksOf mkSynthesize
        task).map DispatchResult.value
    else if s.topology = "star" then
      (executeStar s exec mkAggregate task).map DispatchResult.value
    else
      (executeMesh s exec task).map DispatchResult.consensus) with
  | Except.ok r => ("idle", Except.ok r)
  | Except.error e2 => ("error", Except.error e2)

/-- A mesh swarm of two agents used to witness the dispatch-failure
claim. -/
def meshSwarmXY : Swarm :=
  { topology := "mesh", coordinator := none,
    agents := [⟨"x", "r", []⟩, ⟨"y", "r", []⟩],
    maxAgents := 10, consensusThreshold := (7 : ℚ)/10 }

/-- A per-agent executor whose agent y always fails. -/
def execYFails : SwarmAgent → String → Except String String :=
  fun a t => if a.id = "y" then Except.error "agent y down" else
    Except.ok t

/-- A star swarm with hub x and spoke y used to witness the dispatch
failure clauses on the star topology. -/
def starSwarmXY : Swarm :=
  { topology := "star", coordinator := some "x",
    agents := [⟨"x", "r", []⟩, ⟨"y", "r", []⟩],
    maxAgents := 10, consensusThreshold := (7 : ℚ)/10 }

/-- A hierarchical swarm with coordinator c and a single worker w used to
witness the dispatch failure clauses on the hierarchical topology. -/
def hierSwarmCW : Swarm :=
  { topology := "hierarchical", coordinator := some "c",
    agents := [⟨"c", "r", []⟩, ⟨"w", "r", []⟩],
    maxAgents := 10, consensusThreshold := (7 : ℚ)/10 }

/-- A per-agent executor that fails exactly on the aggregate task (the
hub of a star swarm failing during aggregation). -/
def execAggFails : SwarmAgent → String → Except String String :=
  fun _ t => if t = "agg" then Except.error "hub agg down" else
    Except.ok t

/-- A per-agent executor that fails exactly on the decompose task (the
coordinator of a hierarchical swarm failing while decomposing). -/
def execDecFails : SwarmAgent → String → Except String String :=
  fun _ t => if t = "dec" then Except.error "decompose down" else
    Except.ok t

/-- A per-agent executor whose worker agent w always fails (a worker
failing on its assigned subtask). -/
def execWFails : SwarmAgent → String → Except String String :=
  fun a t => if a.id = "w" then Except.error "worker down" else
    Except.ok t

/-- A per-agent executor that fails exactly on the synthesize task (the
coordinator failing while synthesizing the worker results). -/
def execSynFails : SwarmAgent → String → Except String String :=
  fun _ t => if t = "syn" then Except.error "synth down" else
    Except.ok t

/-! ## Solver toolbox: binarySearch -/

/-- The result object of binarySearch (index is -1 when not found). -/
structure SearchResult where
  found : Bool
  index : Int
  comparisons : Nat
  deriving Repr, DecidableEq

/-- The while loop of binarySearch over the window [l, r1) (the source
keeps left/right inclusive; right = r1 - 1, and the loop runs while
left <= right).  mid = floor((left + right) / 2) = (l + r1 - 1) / 2, and
comparisons is incremented once per iteration. -/
def binarySearchGo (arr : Array Int) (target : Int) :
    Nat → Nat → Nat → SearchResult
  | l, r1, c =>
    if h : l < r1 then
      let mid := (l + r1 - 1) / 2
      if arr.getD mid 0 = target then
        { found := true, index := (mid : Int), comparisons := c + 1 }
      else if arr.getD mid 0 < target then
        binarySearchGo arr target (mid + 1) r1 (c + 1)
      else
        binarySearchGo arr target l mid (c + 1)
    else { found := false, index := -1, comparisons := c }
  termination_by l r1 _ => r1 - l
  decreasing_by
    · omega
    · omega

/-- binarySearch(arr, target): classic binary search reporting found,
index and the number of loop iterations (the comparisons counter). -/
def binarySearch (arr : Array Int) (target : Int) : SearchResult :=
  binarySearchGo arr target 0 arr.size 0

/-! ## Solver toolbox: countMinSketch

Items are hashed through String(item); we model an item by the character
codes of that string (equal items have equal codes).  The hash folds
h = (h * 31 + code) % 1000 from the seed, so it always stays non-negative
and below the width, making the source's Math.abs the identity. -/

/-- The sketch width (fixed at 1000). -/
def cmsWidth : Nat := 1000

/-- The sketch depth (fixed at 7 rows). -/
def cmsDepth : Nat := 7

/-- The per-row hash of an item (the row's seed is 31 * rowIndex, per
hashSeeds = Array.from(.., (_, i) => i * 31)). -/
def cmsHash (item : List Nat) (seed : Nat) : Nat :=
  item.foldl (fun h c => (h * 31 + c) % cmsWidth) seed

/-- The counter of row i at cell idx after inserting every item of data:
each insertion increments, in every row, the cell the item hashes to, so a
cell holds the number of inserted items hashing to it. -/
def cmsCell (data : List (List Nat)) (i : Nat) (idx : Nat) : Nat :=
  (data.filter (fun y => decide (cmsHash y (i * 31) = idx))).length

/-- query(item): the minimum, over the 7 rows, of the counter at the
item's hashed index, folded from Infinity (modelled as the top element).
-/
def cmsQuery (data : List (List Nat)) (item : List Nat) : WithTop Nat :=
  (List.range cmsDepth).foldl
    (fun m i => min m ((cmsCell data i (cmsHash item (i * 31)) :
      WithTop Nat))) ⊤

theorem mem_dedupFirst {V : Type} [DecidableEq V] (l : List V) (x : V) :
    x ∈ dedupFirst l ↔ x ∈ l := by
  induction l using dedupFirst.induct with
  | case1 => simp [dedupFirst]
  | case2 a l ih =>
    simp only [dedupFirst, List.mem_cons, ih, List.mem_filter,
      Bool.not_eq_true', decide_eq_false_iff_not]
    by_cases hxa : x = a
    · simp [hxa]
    · simp [hxa]

theorem dedupFirst_append_singleton {V : Type} [DecidableEq V]
    (l : List V) (v : V) :
    dedupFirst (l ++ [v]) =
      dedupFirst l ++ (if v ∈ l then [] else [v]) := by
  induction l using dedupFirst.induct with
  | case1 => simp [dedupFirst]
  | case2 a l ih =>
    by_cases hva : v = a
    · subst hva
      simp only [List.cons_append, dedupFirst, List.filter_append]
      simp [dedupFirst]
    · simp only [List.cons_append, dedupFirst, List.filter_append]
      have hfv : List.filter (fun x => !decide (x = a)) [v] = [v] := by
        simp [List.filter, hva]
      rw [hfv, ih]
      have hmem : v ∈ List.filter (fun x => !decide (x = a)) l ↔ v ∈ l := by
        simp [List.mem_filter, hva]
      by_cases hvl : v ∈ l
      · simp [hmem, hvl, hva]
      · simp [hmem, hvl, hva]

theorem buildCounts_append_singleton {V : Type} [DecidableEq V]
    (l : List V) (v : V) :
    buildCounts (l ++ [v]) = bumpCount (buildCounts l) v := by
  simp [buildCounts, List.foldl_append]

theorem buildCounts_eq {V : Type} [DecidableEq V] (l : List V) :
    buildCounts l = (dedupFirst l).map (fun v => (v, l.count v)) := by
  induction l using List.reverseRecOn with
  | nil => simp [buildCounts, dedupFirst]
  | append_singleton l v ih =>
    rw [buildCounts_append_singleton, ih, dedupFirst_append_singleton]
    by_cases hvl : v ∈ l
    · have hany : (((dedupFirst l).map (fun w => (w, l.count w))).any
          (fun p => decide (p.1 = v))) = true :=
        List.any_eq_true.mpr ⟨(v, l.count v),
          List.mem_map.mpr ⟨v, (mem_dedupFirst l v).mpr hvl, rfl⟩, by simp⟩
      rw [bumpCount, if_pos hany]
      simp only [hvl, if_true, List.append_nil, List.map_map]
      refine List.map_congr_left ?_
      intro w hw
      simp only [Function.comp]
      by_cases hwv : w = v
      · subst hwv
        have h1 : List.count w [w] = 1 := by simp
        simp [List.count_append, h1]
      · have h0 : List.count w [v] = 0 := by
          simp [hwv]
        simp [hwv, List.count_append, h0]
    · have hany : (((dedupFirst l).map (fun w => (w, l.count w))).any
          (fun p => decide (p.1 = v))) = false := by
        refine List.any_eq_false.mpr ?_
        rintro ⟨w, c⟩ hw
        obtain ⟨w', hw', hww'⟩ := List.mem_map.mp hw
        have hw'w : w' = w := congrArg Prod.fst hww'
        have hwl : w ∈ l := hw'w ▸ (mem_dedupFirst l w').mp hw'
        simp only [decide_eq_true_eq]
        intro h
        exact hvl (h ▸ hwl)
      rw [bumpCount, if_neg (by simp [hany])]
      simp only [hvl, if_false, List.map_append]
      congr 1
      · refine List.map_congr_left ?_
        intro w hw
        have hwl : w ∈ l := (mem_dedupFirst l w).mp hw
        have hwv : w ≠ v := fun h => hvl (h ▸ hwl)
        have h0 : List.count w [v] = 0 := by simp [hwv]
        simp [List.count_append, h0]
      · have h0 : List.count v l = 0 := List.count_eq_zero.mpr hvl
        have h1 : List.count v [v] = 1 := by simp
        simp [List.count_append, h0, h1]

theorem maxSnd_cons {V : Type} (p : V × Nat) (m : List (V × Nat)) :
    maxSnd (p :: m) = max p.2 (maxSnd m) := rfl

theorem le_maxSnd_of_mem {V : Type} {m : List (V × Nat)} {p : V × Nat}
    (h : p ∈ m) : p.2 ≤ maxSnd m := by
  induction m with
  | nil => cases h
  | cons q m ih =>
    rcases List.mem_cons.mp h with h | h
    · subst h; rw [maxSnd_cons]; exact Nat.le_max_left _ _
    · rw [maxSnd_cons]; exact le_trans (ih h) (Nat.le_max_right _ _)

theorem maxSnd_attained {V : Type} {m : List (V × Nat)}
    (h : maxSnd m ≠ 0) : ∃ p ∈ m, p.2 = maxSnd m := by
  induction m with
  | nil => simp [maxSnd] at h
  | cons q m ih =>
    rw [maxSnd_cons] at h ⊢
    rcases Nat.le_total (maxSnd m) q.2 with hle | hle
    · exact ⟨q, List.mem_cons_self _ _, (Nat.max_eq_left hle).symm⟩
    · rcases Nat.eq_zero_or_pos (maxSnd m) with h0 | h0
      · have hq : q.2 ≤ 0 := h0 ▸ hle
        rw [h0] at h ⊢
        exact ⟨q, List.mem_cons_self _ _, by omega⟩
      · obtain ⟨p, hp, hp2⟩ := ih (by omega)
        exact ⟨p, List.mem_cons_of_mem _ hp,
          by rw [Nat.max_eq_right hle]; exact hp2⟩

theorem find?_pred_congr {α : Type} (p q : α → Bool) (l : List α)
    (h : ∀ x ∈ l, p x = q x) : l.find? p = l.find? q := by
  induction l with
  | nil => rfl
  | cons a l ih =>
    have ha := h a (List.mem_cons_self _ _)
    by_cases hpa : p a = true
    · rw [List.find?_cons_of_pos _ hpa, List.find?_cons_of_pos _ (ha ▸ hpa)]
    · rw [List.find?_cons_of_neg _ hpa,
        List.find?_cons_of_neg _ (by rw [← ha]; exact hpa)]
      exact ih fun x hx => h x (List.mem_cons_of_mem _ hx)

theorem scanMax_fst {V : Type} (m : List (V × Nat)) (mc : Nat)
    (cv : Option V) :
    (m.foldl scanStep (mc, cv)).1 = max mc (maxSnd m) := by
  induction m generalizing mc cv with
  | nil => simp [maxSnd]
  | cons p m ih =>
    rw [List.foldl_cons, maxSnd_cons]
    by_cases hp : mc < p.2
    · rw [show scanStep (mc, cv) p = (p.2, some p.1) by
        simp [scanStep, hp]]
      rw [ih]
      omega
    · rw [show scanStep (mc, cv) p = (mc, cv) by
        simp [scanStep, hp]]
      rw [ih]
      omega

theorem scanMax_snd {V : Type} (m : List (V × Nat)) (mc : Nat)
    (cv : Option V) :
    (m.foldl scanStep (mc, cv)).2 =
      match m.find? (fun p => decide (mc < p.2) && decide (maxSnd m ≤ p.2))
      with
      | some p => some p.1
      | none => cv := by
  induction m generalizing mc cv with
  | nil => rfl
  | cons p m ih =>
    rw [List.foldl_cons]
    by_cases hp : mc < p.2
    · rw [show scanStep (mc, cv) p = (p.2, some p.1) by simp [scanStep, hp]]
      rw [ih]
      by_cases hs : maxSnd m ≤ p.2
      · have hpred : (fun q : V × Nat =>
            decide (mc < q.2) && decide (maxSnd (p :: m) ≤ q.2)) p = true := by
          rw [maxSnd_cons]
          simp [hp, Nat.max_eq_left hs]
        rw [List.find?_cons_of_pos (p := fun q : V × Nat =>
          decide (mc < q.2) && decide (maxSnd (p :: m) ≤ q.2)) _ hpred]
        have hnone : m.find? (fun q : V × Nat =>
            decide (p.2 < q.2) && decide (maxSnd m ≤ q.2)) = none := by
          rw [List.find?_eq_none]
          intro q hq
          have := le_maxSnd_of_mem hq
          simp only [Bool.and_eq_true, decide_eq_true_eq, not_and]
          intro h
          omega
        rw [hnone]
      · push_neg at hs
        have hM : maxSnd (p :: m) = maxSnd m := by
          rw [maxSnd_cons]; omega
        have hpredp : (fun q : V × Nat =>
            decide (mc < q.2) && decide (maxSnd (p :: m) ≤ q.2)) p ≠ true := by
          rw [hM]
          simp only [ne_eq, Bool.and_eq_true, decide_eq_true_eq, not_and]
          intro _
          omega
        rw [List.find?_cons_of_neg (p := fun q : V × Nat =>
          decide (mc < q.2) && decide (maxSnd (p :: m) ≤ q.2)) _ hpredp, hM]
        have hcongr : m.find? (fun q : V × Nat =>
              decide (p.2 < q.2) && decide (maxSnd m ≤ q.2)) =
            m.find? (fun q : V × Nat =>
              decide (mc < q.2) && decide (maxSnd m ≤ q.2)) := by
          refine find?_pred_congr _ _ _ ?_
          intro q hq
          have := le_maxSnd_of_mem hq
          by_cases hqM : maxSnd m ≤ q.2
          · have h1 : p.2 < q.2 := by omega
            have h2 : mc < q.2 := by omega
            simp [h1, h2, hqM]
          · simp [hqM]
        rw [hcongr]
        obtain ⟨q, hq, hq2⟩ := maxSnd_attained (m := m) (by omega)
        have hsome : (m.find? (fun q : V × Nat =>
            decide (mc < q.2) && decide (maxSnd m ≤ q.2))).isSome := by
          rw [List.find?_isSome]
          exact ⟨q, hq, by simp [hq2]; omega⟩
        obtain ⟨r, hr⟩ := Option.isSome_iff_exists.mp hsome
        rw [hr]
    · push_neg at hp
      rw [show scanStep (mc, cv) p = (mc, cv) by simp [scanStep]; omega]
      rw [ih]
      have hpredp : (fun q : V × Nat =>
          decide (mc < q.2) && decide (maxSnd (p :: m) ≤ q.2)) p ≠ true := by
        simp only [ne_eq, Bool.and_eq_true, decide_eq_true_eq, not_and]
        intro h
        omega
      rw [List.find?_cons_of_neg (p := fun q : V × Nat =>
        decide (mc < q.2) && decide (maxSnd (p :: m) ≤ q.2)) _ hpredp]
      have hcongr : m.find? (fun q : V × Nat =>
            decide (mc < q.2) && decide (maxSnd m ≤ q.2)) =
          m.find? (fun q : V × Nat =>
            decide (mc < q.2) && decide (maxSnd (p :: m) ≤ q.2)) := by
        refine find?_pred_congr _ _ _ ?_
        intro q hq
        rw [maxSnd_cons]
        by_cases hmcq : mc < q.2
        · have : p.2 ≤ mc := hp
          have hiff : max p.2 (maxSnd m) ≤ q.2 ↔ maxSnd m ≤ q.2 := by omega
          by_cases hq2 : maxSnd m ≤ q.2
          · simp [hmcq, hq2, hiff.mpr hq2]
          · simp [hmcq, hq2, fun h => hq2 (hiff.mp h)]
        · simp [hmcq]
      rw [hcongr]

theorem le_foldrMax {l : List Nat} {x : Nat} (h : x ∈ l) :
    x ≤ l.foldr max 0 := by
  induction l with
  | nil => cases h
  | cons a l ih =>
    rcases List.mem_cons.mp h with h | h
    · subst h; exact Nat.le_max_left _ _
    · exact le_trans (ih h) (Nat.le_max_right _ _)

theorem foldrMax_le {l : List Nat} {n : Nat} (h : ∀ x ∈ l, x ≤ n) :
    l.foldr max 0 ≤ n := by
  induction l with
  | nil => exact Nat.zero_le n
  | cons a l ih =>
    simp only [List.foldr_cons]
    exact Nat.max_le.mpr ⟨h a (List.mem_cons_self _ _),
      ih fun x hx => h x (List.mem_cons_of_mem _ hx)⟩

theorem foldrMax_congr {l₁ l₂ : List Nat}
    (h : ∀ x, x ∈ l₁ ↔ x ∈ l₂) :
    l₁.foldr max 0 = l₂.foldr max 0 :=
  le_antisymm
    (foldrMax_le fun x hx => le_foldrMax ((h x).mp hx))
    (foldrMax_le fun x hx => le_foldrMax ((h x).mpr hx))

theorem maxSnd_buildCounts {V : Type} [DecidableEq V] (l : List V) :
    maxSnd (buildCounts l) = maxOcc l := by
  rw [buildCounts_eq, maxOcc, maxSnd, List.map_map]
  refine foldrMax_congr ?_
  intro x
  simp only [List.mem_map, Function.comp]
  constructor
  · rintro ⟨v, hv, rfl⟩
    exact ⟨v, (mem_dedupFirst l v).mp hv, rfl⟩
  · rintro ⟨v, hv, rfl⟩
    exact ⟨v, (mem_dedupFirst l v).mpr hv, rfl⟩

theorem maxOcc_pos {V : Type} [DecidableEq V] {l : List V}
    (hne : l ≠ []) : 1 ≤ maxOcc l := by
  obtain ⟨a, t, rfl⟩ := List.exists_cons_of_ne_nil hne
  have hmem : List.count a (a :: t) ∈ (a :: t).map
      (fun r => List.count r (a :: t)) :=
    List.mem_map.mpr ⟨a, List.mem_cons_self _ _, rfl⟩
  have hle := le_foldrMax hmem
  have hc : 1 ≤ List.count a (a :: t) := by
    simp [List.count_cons]
  exact le_trans hc hle

theorem count_le_maxOcc {V : Type} [DecidableEq V] {l : List V} {v : V}
    (h : v ∈ l) : l.count v ≤ maxOcc l :=
  le_foldrMax (List.mem_map.mpr ⟨v, h, rfl⟩)

theorem find?_filter_ne {V : Type} [DecidableEq V] (l : List V) (a : V)
    (p : V → Bool) (hpa : ¬ p a = true) :
    (l.filter (fun x => !decide (x = a))).find? p = l.find? p := by
  induction l with
  | nil => rfl
  | cons b l ih =>
    by_cases hba : b = a
    · subst hba
      rw [show List.filter (fun x => !decide (x = b)) (b :: l) =
          List.filter (fun x => !decide (x = b)) l by simp [List.filter]]
      rw [ih, List.find?_cons_of_neg _ hpa]
    · rw [show List.filter (fun x => !decide (x = a)) (b :: l) =
          b :: List.filter (fun x => !decide (x = a)) l by
        simp [List.filter, hba]]
      by_cases hpb : p b = true
      · rw [List.find?_cons_of_pos _ hpb, List.find?_cons_of_pos _ hpb]
      · rw [List.find?_cons_of_neg _ hpb, List.find?_cons_of_neg _ hpb, ih]

theorem find?_dedupFirst {V : Type} [DecidableEq V] (l : List V)
    (p : V → Bool) : (dedupFirst l).find? p = l.find? p := by
  induction l using dedupFirst.induct with
  | case1 => rw [dedupFirst]
  | case2 a l ih =>
    rw [dedupFirst]
    by_cases hpa : p a = true
    · rw [List.find?_cons_of_pos _ hpa, List.find?_cons_of_pos _ hpa]
    · rw [List.find?_cons_of_neg _ hpa, List.find?_cons_of_neg _ hpa, ih,
        find?_filter_ne _ _ _ hpa]

theorem scanMax_buildCounts_snd {V : Type} [DecidableEq V] (l : List V)
    (hne : l ≠ []) :
    (scanMax (buildCounts l)).2 =
      l.find? (fun r => decide (l.count r = maxOcc l)) := by
  rw [scanMax, scanMax_snd, maxSnd_buildCounts, buildCounts_eq,
    List.find?_map]
  have hM := maxOcc_pos hne
  have hcongr : (dedupFirst l).find?
        ((fun p : V × Nat => decide (0 < p.2) && decide (maxOcc l ≤ p.2)) ∘
          fun v => (v, l.count v)) =
      (dedupFirst l).find? (fun r => decide (l.count r = maxOcc l)) := by
    refine find?_pred_congr _ _ _ ?_
    intro v hv
    have hvl : v ∈ l := (mem_dedupFirst l v).mp hv
    have h1 : 0 < l.count v := List.count_pos_iff.mpr hvl
    have h2 : l.count v ≤ maxOcc l := count_le_maxOcc hvl
    simp only [Function.comp]
    by_cases he : l.count v = maxOcc l
    · simp [he, h1, hM]
      omega
    · have : ¬ maxOcc l ≤ l.count v := by omega
      simp [he, this]
  rw [hcongr, find?_dedupFirst]
  cases l.find? (fun r => decide (l.count r = maxOcc l)) <;> rfl

/-- C1: for every non-empty result list and threshold, achieveConsensus
reports votes equal to the largest occurrence count of any single value,
total equal to the number of results, confidence = votes/total, achieved
iff confidence reaches the threshold, and result equal to the first value
in list order whose count attains the maximum; in particular a 2-to-1
split with threshold 0.7 is not achieved. -/
theorem claim_C1_achieveConsensus {V : Type} [DecidableEq V]
    (results : List V) (threshold : ℚ) (hne : results ≠ []) :
    ((achieveConsensus results threshold).votes = maxOcc results ∧
      (achieveConsensus results threshold).total = results.length ∧
      (achieveConsensus results threshold).confidence =
        (maxOcc results : ℚ) / (results.length : ℚ) ∧
      ((achieveConsensus results threshold).achieved = true ↔
        threshold ≤ (maxOcc results : ℚ) / (results.length : ℚ)) ∧
      (achieveConsensus results threshold).result =
        results.find? (fun r => decide (results.count r = maxOcc results))) ∧
    (achieveConsensus (["a", "a", "b"] : List String)
      ((7 : ℚ)/10)).achieved = false := by
  have hv : (scanMax (buildCounts results)).1 = maxOcc results := by
    rw [scanMax, scanMax_fst, maxSnd_buildCounts]
    exact Nat.zero_max _
  refine ⟨⟨?_, rfl, ?_, ?_, ?_⟩, ?_⟩
  · exact hv
  · show ((scanMax (buildCounts results)).1 : ℚ) / _ = _
    rw [hv]
  · show decide (threshold ≤ ((scanMax (buildCounts results)).1 : ℚ) / _)
        = true ↔ _
    rw [hv, decide_eq_true_eq]
  · show (scanMax (buildCounts results)).2 = _
    exact scanMax_buildCounts_snd results hne
  · show decide ((7 : ℚ)/10 ≤
        ((scanMax (buildCounts (["a", "a", "b"] : List String))).1 : ℚ) /
          ((3 : Nat) : ℚ)) = false
    have h2 : (scanMax (buildCounts (["a", "a", "b"] : List String))).1
        = 2 := by
      rw [scanMax, scanMax_fst, maxSnd_buildCounts]
      decide
    rw [h2, decide_eq_false_iff_not]
    push_cast
    norm_num

theorem claim_C1_achieveConsensus_witness :
    (achieveConsensus (["x", "y", "y"] : List String) ((1 : ℚ)/2)).votes =
      maxOcc (["x", "y", "y"] : List String) ∧
    (achieveConsensus (["x", "y", "y"] : List String) ((1 : ℚ)/2)).result =
      (["x", "y", "y"] : List String).find?
        (fun r => decide ((["x", "y", "y"] : List String).count r =
          maxOcc (["x", "y", "y"] : List String))) := by
  have h := claim_C1_achieveConsensus (["x", "y", "y"] : List String)
    ((1 : ℚ)/2) (by simp)
  exact ⟨h.1.1, h.1.2.2.2.2⟩

/-- C6 (code bug): createSwarm with a non-empty role list never recomputes
connections — every agent of a freshly created mesh swarm has an empty
connections list, although the repository's own test expects each agent of
a 3-agent mesh swarm to be connected to the other two (which is what one
recomputation would produce, shown in the second conjunct). -/
theorem claim_C6_createSwarm_connections_empty :
    ((createSwarm "mesh"
        [⟨"agent1", false⟩, ⟨"agent2", false⟩, ⟨"agent3", false⟩]
        ["a1", "a2", "a3"] 100 ((7 : ℚ)/10)).agents.map
      (fun a => a.connections)) = [[], [], []] ∧
    ((updateTopologyConnections (createSwarm "mesh"
        [⟨"agent1", false⟩, ⟨"agent2", false⟩, ⟨"agent3", false⟩]
        ["a1", "a2", "a3"] 100 ((7 : ℚ)/10))).agents.map
      (fun a => a.connections)) =
      [["a2", "a3"], ["a1", "a3"], ["a1", "a2"]] := by
  exact ⟨rfl, rfl⟩

/-- C7: after a ring-topology recomputation over a roster of n agents
(n at least 1 is implied by i < n), the agent at index i is connected
exactly to the agents at indices (i-1) mod n and (i+1) mod n — its
connections list is precisely those two ids, which coincide for the small
rosters n = 1 and n = 2. -/
theorem claim_C7_ring_connections (s : Swarm) (hring : s.topology = "ring")
    (i : Nat) (hi : i < s.agents.length) :
    ((updateTopologyConnections s).agents.getD i default).connections =
      [(s.agents.getD ((i + s.agents.length - 1) % s.agents.length)
          default).id,
       (s.agents.getD ((i + 1) % s.agents.length) default).id] := by
  have hn : 0 < s.agents.length := Nat.lt_of_le_of_lt (Nat.zero_le i) hi
  have hp : (i + s.agents.length - 1) % s.agents.length <
      s.agents.length := Nat.mod_lt _ hn
  have hq : (i + 1) % s.agents.length < s.agents.length := Nat.mod_lt _ hn
  have hupd : (updateTopologyConnections s).agents =
      s.agents.mapIdx (fun j a =>
        { a with connections := ringConns s.agents j }) := by
    rw [updateTopologyConnections]
    rw [if_neg (by rw [hring]; decide), if_neg (by rw [hring]; decide),
      if_neg (by rw [hring]; decide), if_pos hring]
  rw [hupd]
  have hi' : i < (s.agents.mapIdx (fun j a =>
      { a with connections := ringConns s.agents j })).length := by
    simpa using hi
  have h1 : (s.agents.mapIdx (fun j a =>
        { a with connections := ringConns s.agents j })).getD i default =
      { s.agents.get ⟨i, hi⟩ with connections := ringConns s.agents i } := by
    rw [List.getD_eq_getElem _ _ hi']
    exact List.get_mapIdx s.agents _ i hi
  have h2 : s.agents.getD ((i + s.agents.length - 1) % s.agents.length)
      default = s.agents.get ⟨_, hp⟩ := by
    rw [List.getD_eq_getElem _ _ hp, List.get_eq_getElem]
  have h3 : s.agents.getD ((i + 1) % s.agents.length) default =
      s.agents.get ⟨_, hq⟩ := by
    rw [List.getD_eq_getElem _ _ hq, List.get_eq_getElem]
  rw [h1, h2, h3]
  show ringConns s.agents i = _
  rw [ringConns, agentIdAt, agentIdAt,
    List.get?_eq_get hp, List.get?_eq_get hq]
  rfl

theorem claim_C7_ring_connections_witness :
    ((updateTopologyConnections
        { topology := "ring", coordinator := none,
          agents := [⟨"x", "r", []⟩, ⟨"y", "r", []⟩],
          maxAgents := 10, consensusThreshold := (1 : ℚ)/2 }).agents.getD
        0 default).connections =
      [(([⟨"x", "r", []⟩, ⟨"y", "r", []⟩] : List SwarmAgent).getD
          ((0 + 2 - 1) % 2) default).id,
       (([⟨"x", "r", []⟩, ⟨"y", "r", []⟩] : List SwarmAgent).getD
          ((0 + 1) % 2) default).id] :=
  claim_C7_ring_connections
    { topology := "ring", coordinator := none,
      agents := [⟨"x", "r", []⟩, ⟨"y", "r", []⟩],
      maxAgents := 10, consensusThreshold := (1 : ℚ)/2 }
    rfl 0 (by decide)

/-- C8 counterexample: a handler-less node of type llm is routed to the
LLM gateway, not to the structural pass-through — refuting the claim that
the pass-through applies whatever the declared type. -/
theorem claim_C8_counterexample :
    (executeNode llmNodeDag gatewayStub (initRun llmNodeDag) "n").2 =
      Except.ok (JSValue.vStr "from-gateway") ∧
    (Except.ok (JSValue.vStr "from-gateway") : Except DagError JSValue) ≠
      Except.ok (passThrough (gatherInputs (initRun llmNodeDag) []) "n") := by
  refine ⟨rfl, ?_⟩
  intro h
  injection h with h1
  exact JSValue.noConfusion h1

/-- C8 as amended: for every node that declares no handler and whose type
is not llm, executing the node (with all dependencies completed) yields
exactly the structural pass-through — the object of its gathered inputs
plus its own id. -/
theorem claim_C8_passThrough (g : Dag)
    (llm : String → List (String × JSValue) → Except String JSValue)
    (run : DagRun) (nid : String) (n : DagNode)
    (hfind : g.nodes.find? (fun m => decide (m.id = nid)) = some n)
    (hh : n.handler = none) (ht : ¬ n.type = "llm")
    (hdeps : ∀ d ∈ n.dependencies, stateOf run d = "completed") :
    (executeNode g llm run nid).2 =
      Except.ok (passThrough (gatherInputs run n.dependencies) nid) := by
  have hid : n.id = nid := by
    have h1 := List.find?_some hfind
    simpa using h1
  subst hid
  have hnone : n.dependencies.find?
      (fun d => !decide (stateOf run d = "completed")) = none := by
    rw [List.find?_eq_none]
    intro d hd
    simp [hdeps d hd]
  simp only [executeNode, hfind, hnone, nodeBody, hh]
  rw [if_neg ht]
  rfl

theorem claim_C8_passThrough_witness :
    (executeNode { nodes := [passNode], edges := [] } gatewayStub
        (initRun { nodes := [passNode], edges := [] }) "p").2 =
      Except.ok (passThrough (gatherInputs
        (initRun { nodes := [passNode], edges := [] })
        passNode.dependencies) "p") :=
  claim_C8_passThrough { nodes := [passNode], edges := [] } gatewayStub
    (initRun { nodes := [passNode], edges := [] }) "p" passNode
    rfl rfl (by decide) (by intro d hd; cases hd)

/-- C2 counterexample: a spec whose single edge comes from the undeclared
node x.  createDAG succeeds (it is a total function with no failure case,
matching the absence of any throw in the source), keeps the edge in the
edges list, and wires no dependency or dependent from it — the edge is
silently ignored instead of raising a ValidationError. -/
theorem claim_C2_counterexample :
    (createDAG [⟨"a", none, none, none⟩] [("x", "a")]).edges =
      [("x", "a")] ∧
    ((createDAG [⟨"a", none, none, none⟩] [("x", "a")]).nodes.map
      (fun n => (n.id, n.dependencies, n.dependents))) = [("a", [], [])] :=
  ⟨rfl, rfl⟩

theorem wireOne_id (e : String × String) (m : DagNode) :
    (wireOne e m).id = m.id := by
  simp only [wireOne]
  split <;> split <;> rfl

theorem wireOne_type (e : String × String) (m : DagNode) :
    (wireOne e m).type = m.type := by
  simp only [wireOne]
  split <;> split <;> rfl

theorem wireOne_config (e : String × String) (m : DagNode) :
    (wireOne e m).config = m.config := by
  simp only [wireOne]
  split <;> split <;> rfl

theorem wireOne_handler (e : String × String) (m : DagNode) :
    (wireOne e m).handler = m.handler := by
  simp only [wireOne]
  split <;> split <;> rfl

theorem wireOne_dependencies (e : String × String) (m : DagNode) :
    (wireOne e m).dependencies =
      m.dependencies ++ (if m.id = e.2 then [e.1] else []) := by
  simp only [wireOne]
  by_cases h2 : m.id = e.2
  · rw [if_pos h2]
    split <;> simp [h2]
  · rw [if_neg h2]
    split <;> simp [h2]

theorem wireOne_dependents (e : String × String) (m : DagNode) :
    (wireOne e m).dependents =
      m.dependents ++ (if m.id = e.1 then [e.2] else []) := by
  simp only [wireOne]
  by_cases h2 : m.id = e.2
  · rw [if_pos h2]
    by_cases h1 : m.id = e.1
    · rw [if_pos (show ({ m with dependencies := m.dependencies ++ [e.1]
          } : DagNode).id = e.1 from h1), if_pos h1]
    · rw [if_neg (show ¬ ({ m with dependencies := m.dependencies ++ [e.1]
          } : DagNode).id = e.1 from h1), if_neg h1, List.append_nil]
  · rw [if_neg h2]
    by_cases h1 : m.id = e.1
    · rw [if_pos h1, if_pos h1]
    · rw [if_neg h1, if_neg h1, List.append_nil]

theorem anyId_map_of_id_preserved (ns : List DagNode)
    (f : DagNode → DagNode) (hf : ∀ m, (f m).id = m.id) (x : String) :
    anyId (ns.map f) x = anyId ns x := by
  rw [anyId, anyId, List.any_map]
  have : ((fun m : DagNode => decide (m.id = x)) ∘ f) =
      fun m : DagNode => decide (m.id = x) := by
    funext m
    simp [Function.comp, hf]
  rw [this]

theorem wireAll_nil (ns : List DagNode) (m : DagNode) :
    wireAll ns [] m = m := by
  rw [wireAll, wiredDeps, wiredDependents]
  simp

theorem wireOne_wireAll (ns : List DagNode) (es : List (String × String))
    (e : String × String) (m : DagNode)
    (ha1 : anyId ns e.1 = true) (ha2 : anyId ns e.2 = true) :
    wireOne e (wireAll ns es m) = wireAll ns (es ++ [e]) m := by
  have hid : (wireAll ns es m).id = m.id := rfl
  have hdepsApp : wiredDeps ns (es ++ [e]) m.id =
      wiredDeps ns es m.id ++ (if m.id = e.2 then [e.1] else []) := by
    rw [wiredDeps, wiredDeps, List.filter_append, List.map_append]
    congr 1
    by_cases h2 : e.2 = m.id
    · have ha2m : anyId ns m.id = true := h2 ▸ ha2
      simp [List.filter, h2, ha1, ha2m, eq_comm]
    · have h2m : ¬ m.id = e.2 := fun h => h2 (Eq.symm h)
      simp [List.filter, h2, h2m]
  have hdtsApp : wiredDependents ns (es ++ [e]) m.id =
      wiredDependents ns es m.id ++ (if m.id = e.1 then [e.2] else []) := by
    rw [wiredDependents, wiredDependents, List.filter_append,
      List.map_append]
    congr 1
    by_cases h1 : e.1 = m.id
    · have ha1m : anyId ns m.id = true := h1 ▸ ha1
      simp [List.filter, h1, ha1m, ha2, eq_comm]
    · have h1m : ¬ m.id = e.1 := fun h => h1 (Eq.symm h)
      simp [List.filter, h1, h1m]
  have ht := wireOne_type e (wireAll ns es m)
  have hc := wireOne_config e (wireAll ns es m)
  have hh := wireOne_handler e (wireAll ns es m)
  have hdeps := wireOne_dependencies e (wireAll ns es m)
  have hdts := wireOne_dependents e (wireAll ns es m)
  have hid2 := wireOne_id e (wireAll ns es m)
  rcases hw : wireOne e (wireAll ns es m) with ⟨i, t, c, h, dp, dt⟩
  rw [hw] at ht hc hh hdeps hdts hid2
  rw [wireAll]
  rw [wireAll] at ht hc hh hdeps hdts hid2
  simp only at ht hc hh hdeps hdts hid2
  rw [hdepsApp, hdtsApp]
  simp only [hid2, ht, hc, hh]
  congr 1
  · rw [hdeps]
    simp [List.append_assoc]
  · rw [hdts]
    simp [List.append_assoc]

theorem foldl_wireEdge_eq (es : List (String × String))
    (ns : List DagNode) :
    es.foldl wireEdge ns = ns.map (wireAll ns es) := by
  induction es using List.reverseRecOn with
  | nil =>
    have h0 : ∀ m ∈ ns, wireAll ns [] m = (fun m => m) m :=
      fun m _ => wireAll_nil ns m
    rw [List.foldl_nil, List.map_congr_left h0, List.map_id']
  | append_singleton es e ih =>
    rw [List.foldl_append, List.foldl_cons, List.foldl_nil, ih, wireEdge]
    have hid : ∀ m : DagNode, (wireAll ns es m).id = m.id := fun m => rfl
    rw [anyId_map_of_id_preserved ns _ hid e.1,
      anyId_map_of_id_preserved ns _ hid e.2]
    by_cases hcond : (anyId ns e.1 && anyId ns e.2) = true
    · obtain ⟨ha1, ha2⟩ := Bool.and_eq_true _ _ |>.mp hcond
      rw [if_pos hcond, List.map_map]
      refine List.map_congr_left ?_
      intro m hm
      exact wireOne_wireAll ns es e m ha1 ha2
    · rw [if_neg hcond]
      have hfalse : ∀ i : String, (decide (e.2 = i) && anyId ns e.1 &&
          anyId ns e.2) = false := by
        intro i
        cases hb1 : anyId ns e.1 <;> cases hb2 : anyId ns e.2 <;> simp_all
      have hfalse1 : ∀ i : String, (decide (e.1 = i) && anyId ns e.1 &&
          anyId ns e.2) = false := by
        intro i
        cases hb1 : anyId ns e.1 <;> cases hb2 : anyId ns e.2 <;> simp_all
      refine List.map_congr_left ?_
      intro m hm
      rw [wireAll, wireAll]
      have hdepsApp : wiredDeps ns (es ++ [e]) m.id =
          wiredDeps ns es m.id := by
        rw [wiredDeps, wiredDeps, List.filter_append]
        have h0 : List.filter (fun x => decide (x.2 = m.id) &&
            anyId ns x.1 && anyId ns x.2) [e] = [] := by
          simp [List.filter, hfalse m.id]
        rw [h0, List.append_nil]
      have hdtsApp : wiredDependents ns (es ++ [e]) m.id =
          wiredDependents ns es m.id := by
        rw [wiredDependents, wiredDependents, List.filter_append]
        have h0 : List.filter (fun x => decide (x.1 = m.id) &&
            anyId ns x.1 && anyId ns x.2) [e] = [] := by
          simp [List.filter, hfalse1 m.id]
        rw [h0, List.append_nil]
      rw [hdepsApp, hdtsApp]

theorem setNode_pres_empty (acc : List DagNode) (n : DagNode)
    (hacc : ∀ m ∈ acc, m.dependencies = [] ∧ m.dependents = [])
    (hn : n.dependencies = [] ∧ n.dependents = []) :
    ∀ m ∈ setNode acc n, m.dependencies = [] ∧ m.dependents = [] := by
  intro m hm
  rw [setNode] at hm
  by_cases hany : anyId acc n.id = true
  · rw [if_pos hany] at hm
    obtain ⟨m0, hm0, hmap⟩ := List.mem_map.mp hm
    by_cases h : m0.id = n.id
    · rw [if_pos h] at hmap
      exact hmap ▸ hn
    · rw [if_neg h] at hmap
      exact hmap ▸ hacc m0 hm0
  · rw [if_neg hany] at hm
    rcases List.mem_append.mp hm with h | h
    · exact hacc m h
    · rw [List.mem_singleton.mp h]
      exact hn

theorem baseNodes_empty (specNodes : List DagSpecNode) :
    ∀ acc, (∀ m ∈ acc, m.dependencies = [] ∧ m.dependents = []) →
    ∀ m ∈ specNodes.foldl (fun acc sn => setNode acc (specToNode sn)) acc,
      m.dependencies = [] ∧ m.dependents = [] := by
  induction specNodes with
  | nil => intro acc hacc; exact hacc
  | cons sn sns ih =>
    intro acc hacc
    rw [List.foldl_cons]
    exact ih _ (setNode_pres_empty acc (specToNode sn) hacc ⟨rfl, rfl⟩)

theorem anyId_setNode (acc : List DagNode) (n : DagNode) (x : String) :
    anyId (setNode acc n) x = (anyId acc x || decide (n.id = x)) := by
  rw [setNode]
  by_cases hany : anyId acc n.id = true
  · rw [if_pos hany]
    have hids : anyId (acc.map (fun m => if m.id = n.id then n else m)) x =
        anyId acc x := by
      refine anyId_map_of_id_preserved acc _ ?_ x
      intro m
      by_cases h : m.id = n.id
      · rw [if_pos h, h]
      · rw [if_neg h]
    rw [hids]
    by_cases hx : n.id = x
    · have : anyId acc x = true := hx ▸ hany
      simp [this, hx]
    · simp [hx]
  · rw [if_neg hany, anyId, List.any_append, anyId]
    congr 1
    simp [anyId]

theorem anyId_baseNodes (specNodes : List DagSpecNode) (x : String) :
    ∀ acc, anyId (specNodes.foldl
        (fun acc sn => setNode acc (specToNode sn)) acc) x =
      (anyId acc x || declaredIn specNodes x) := by
  induction specNodes with
  | nil => intro acc; simp [declaredIn]
  | cons sn sns ih =>
    intro acc
    rw [List.foldl_cons, ih, anyId_setNode]
    have hdecl : declaredIn (sn :: sns) x =
        (decide (sn.id = x) || declaredIn sns x) := by
      rw [declaredIn, List.any_cons, declaredIn]
    rw [hdecl, Bool.or_assoc]
    rfl

/-- C2 as amended: createDAG performs no validation and never fails (it is
a total function); the full edge list is recorded, and a node's
dependency/dependent lists contain exactly the endpoints of those spec
edges whose both endpoints name declared nodes — an edge with an
undeclared endpoint is kept in the edges list but silently contributes no
wiring. -/
theorem claim_C2_createDAG_no_validation (specNodes : List DagSpecNode)
    (specEdges : List (String × String)) :
    (createDAG specNodes specEdges).edges = specEdges ∧
    ∀ n ∈ (createDAG specNodes specEdges).nodes,
      n.dependencies = (specEdges.filter (fun e =>
        decide (e.2 = n.id) && declaredIn specNodes e.1 &&
          declaredIn specNodes e.2)).map (fun e => e.1) ∧
      n.dependents = (specEdges.filter (fun e =>
        decide (e.1 = n.id) && declaredIn specNodes e.1 &&
          declaredIn specNodes e.2)).map (fun e => e.2) := by
  refine ⟨rfl, ?_⟩
  intro n hn
  rw [show (createDAG specNodes specEdges).nodes =
      specEdges.foldl wireEdge (specNodes.foldl
        (fun acc sn => setNode acc (specToNode sn)) []) from rfl,
    foldl_wireEdge_eq] at hn
  obtain ⟨m, hm, rfl⟩ := List.mem_map.mp hn
  obtain ⟨hd0, ht0⟩ := baseNodes_empty specNodes [] (by intro m hm; cases hm)
    m hm
  have hany : ∀ x, anyId (specNodes.foldl
      (fun acc sn => setNode acc (specToNode sn)) []) x =
        declaredIn specNodes x := by
    intro x
    rw [anyId_baseNodes]
    simp [anyId]
  have hid : (wireAll (specNodes.foldl
      (fun acc sn => setNode acc (specToNode sn)) []) specEdges m).id =
        m.id := rfl
  rw [hid]
  constructor
  · show m.dependencies ++ wiredDeps _ specEdges m.id = _
    rw [hd0, List.nil_append, wiredDeps]
    congr 1
    refine List.filter_congr ?_
    intro e he
    rw [hany e.1, hany e.2]
  · show m.dependents ++ wiredDependents _ specEdges m.id = _
    rw [ht0, List.nil_append, wiredDependents]
    congr 1
    refine List.filter_congr ?_
    intro e he
    rw [hany e.1, hany e.2]

theorem claim_C2_createDAG_no_validation_witness :
    nodeBWired.dependencies =
      (([("a", "b")] : List (String × String)).filter (fun e =>
        decide (e.2 = nodeBWired.id) && declaredIn specAB e.1 &&
          declaredIn specAB e.2)).map (fun e => e.1) ∧
    nodeBWired.dependents =
      (([("a", "b")] : List (String × String)).filter (fun e =>
        decide (e.1 = nodeBWired.id) && declaredIn specAB e.1 &&
          declaredIn specAB e.2)).map (fun e => e.2) :=
  (claim_C2_createDAG_no_validation specAB [("a", "b")]).2 nodeBWired
    (by exact List.mem_cons_of_mem _ (List.mem_cons_self _ _))

theorem lookupKV_cons {α : Type} (p : String × α) (l : List (String × α))
    (k : String) :
    lookupKV (p :: l) k = if p.1 = k then some p.2 else lookupKV l k := by
  rw [lookupKV]
  by_cases h : p.1 = k
  · rw [List.find?_cons_of_pos _ (by simp [h]), if_pos h]
    rfl
  · rw [List.find?_cons_of_neg _ (by simp [h]), if_neg h]
    rfl

theorem lookupKV_setKV_self {α : Type} (l : List (String × α))
    (k : String) (v : α) : lookupKV (setKV l k v) k = some v := by
  rw [setKV]
  by_cases hany : l.any (fun p => decide (p.1 = k)) = true
  · rw [if_pos hany]
    obtain ⟨p0, hp0, hp0k⟩ := List.any_eq_true.mp hany
    clear hany
    induction l with
    | nil => cases hp0
    | cons q l ih =>
      rw [List.map_cons, lookupKV_cons]
      by_cases hq : q.1 = k
      · rw [if_pos hq]
        simp [hq]
      · rw [if_neg hq]
        simp only [hq, if_false]
        rcases List.mem_cons.mp hp0 with h | h
        · exact absurd (show q.1 = k by rw [← h]; simpa using hp0k) hq
        · exact ih h
  · rw [if_neg hany]
    induction l with
    | nil => simp [lookupKV_cons]
    | cons q l ih =>
      rw [List.cons_append, lookupKV_cons]
      have hq : ¬ q.1 = k := by
        intro h
        exact hany (List.any_eq_true.mpr ⟨q, List.mem_cons_self _ _,
          by simp [h]⟩)
      rw [if_neg hq]
      exact ih (fun hc => hany (by
        obtain ⟨p0, hp0, hp0k⟩ := List.any_eq_true.mp hc
        exact List.any_eq_true.mpr ⟨p0, List.mem_cons_of_mem _ hp0, hp0k⟩))

theorem lookupKV_setKV_ne {α : Type} (l : List (String × α))
    (k x : String) (v : α) (hx : ¬ x = k) :
    lookupKV (setKV l k v) x = lookupKV l x := by
  rw [setKV]
  by_cases hany : l.any (fun p => decide (p.1 = k)) = true
  · rw [if_pos hany]
    clear hany
    induction l with
    | nil => rfl
    | cons q l ih =>
      rw [List.map_cons, lookupKV_cons, lookupKV_cons]
      by_cases hq : q.1 = k
      · rw [if_pos hq]
        have h1 : ¬ q.1 = x := fun h => hx (h ▸ hq.symm ▸ rfl)
        have h2 : ¬ (q.1, v).1 = x := h1
        rw [if_neg h1, if_neg h2]
        exact ih
      · rw [if_neg hq]
        by_cases hqx : q.1 = x
        · rw [if_pos hqx, if_pos hqx]
        · rw [if_neg hqx, if_neg hqx]
          exact ih
  · rw [if_neg hany]
    induction l with
    | nil =>
      rw [List.nil_append, lookupKV_cons]
      have : ¬ k = x := fun h => hx h.symm
      rw [if_neg this]
    | cons q l ih =>
      rw [List.cons_append, lookupKV_cons, lookupKV_cons]
      by_cases hqx : q.1 = x
      · rw [if_pos hqx, if_pos hqx]
      · rw [if_neg hqx, if_neg hqx]
        exact ih (fun hc => hany (by
          obtain ⟨p0, hp0, hp0k⟩ := List.any_eq_true.mp hc
          exact List.any_eq_true.mpr ⟨p0, List.mem_cons_of_mem _ hp0,
            hp0k⟩))

theorem stateOf_set_self (run : DagRun) (results : List (String × JSValue))
    (k v : String) :
    stateOf { states := setKV run.states k v, results := results } k = v := by
  rw [stateOf]
  show (lookupKV (setKV run.states k v) k).getD _ = v
  rw [lookupKV_setKV_self]
  rfl

theorem stateOf_set_ne (run : DagRun) (results : List (String × JSValue))
    (k v x : String) (hx : ¬ x = k) :
    stateOf { states := setKV run.states k v, results := results } x =
      stateOf run x := by
  rw [stateOf, stateOf]
  show (lookupKV (setKV run.states k v) x).getD _ = _
  rw [lookupKV_setKV_ne _ _ _ _ hx]

/-- Case analysis of executeNode: it either succeeds and marks the node
completed with its result committed, or the body fails and only this
node's state turns failed (with no result committed), or it fails before
touching any state (unknown node or dependency not completed). -/
theorem executeNode_cases (g : Dag)
    (llm : String → List (String × JSValue) → Except String JSValue)
    (run : DagRun) (nid : String) :
    (∃ run1 r, executeNode g llm run nid = (run1, Except.ok r) ∧
      run1.states = setKV (setKV run.states nid "running") nid "completed" ∧
      run1.results = setKV run.results nid r) ∨
    (∃ run1 msg, executeNode g llm run nid =
        (run1, Except.error (DagError.handlerFailure nid msg)) ∧
      run1.states = setKV (setKV run.states nid "running") nid "failed" ∧
      run1.results = run.results) ∨
    (∃ e, executeNode g llm run nid = (run, Except.error e) ∧
      ∀ nid2 msg, e ≠ DagError.handlerFailure nid2 msg) := by
  cases hfind : g.nodes.find? (fun n => decide (n.id = nid)) with
  | none =>
    refine Or.inr (Or.inr ⟨DagError.nodeNotFound nid, ?_, ?_⟩)
    · simp only [executeNode, hfind]
    · intro nid2 msg h
      exact DagError.noConfusion h
  | some node =>
    cases hdep : node.dependencies.find?
        (fun d => !decide (stateOf run d = "completed")) with
    | some d =>
      refine Or.inr (Or.inr ⟨DagError.depNotCompleted nid d, ?_, ?_⟩)
      · simp only [executeNode, hfind, hdep]
      · intro nid2 msg h
        exact DagError.noConfusion h
    | none =>
      cases hbody : nodeBody llm node (gatherInputs
          { run with states := setKV run.states nid "running" }
          node.dependencies) with
      | ok r =>
        refine Or.inl ⟨DagRun.mk
          (setKV (setKV run.states nid "running") nid "completed")
          (setKV run.results nid r), r, ?_, rfl, rfl⟩
        simp only [executeNode, hfind, hdep, hbody]
      | error e =>
        refine Or.inr (Or.inl ⟨DagRun.mk
          (setKV (setKV run.states nid "running") nid "failed")
          run.results, e, ?_, rfl, rfl⟩)
        simp only [executeNode, hfind, hdep, hbody]

/-- Success shape of executeNode when the node exists, its dependencies
are completed and its body cannot fail. -/
theorem executeNode_ok_of (g : Dag)
    (llm : String → List (String × JSValue) → Except String JSValue)
    (run : DagRun) (nid : String) (n : DagNode)
    (hfind : g.nodes.find? (fun m => decide (m.id = nid)) = some n)
    (hdeps : ∀ d ∈ n.dependencies, stateOf run d = "completed")
    (hOKn : ∀ inputs, (nodeBody llm n inputs).isOk = true) :
    ∃ r, executeNode g llm run nid =
      ({ states := setKV (setKV run.states nid "running") nid "completed",
         results := setKV run.results nid r }, Except.ok r) := by
  have hnone : n.dependencies.find?
      (fun d => !decide (stateOf run d = "completed")) = none := by
    rw [List.find?_eq_none]
    intro d hd
    simp [hdeps d hd]
  cases hbody : nodeBody llm n (gatherInputs
      { run with states := setKV run.states nid "running" }
      n.dependencies) with
  | ok r =>
    refine ⟨r, ?_⟩
    simp only [executeNode, hfind, hnone, hbody]
  | error e =>
    have h := hOKn (gatherInputs
      { run with states := setKV run.states nid "running" } n.dependencies)
    rw [hbody] at h
    exact Bool.noConfusion (show false = true from h)

theorem stateOf_eq (run : DagRun) (x : String) :
    stateOf run x = (lookupKV run.states x).getD "missing" := rfl

theorem runSeq_failfast (g : Dag)
    (llm : String → List (String × JSValue) → Except String JSValue) :
    ∀ (ids : List String) (run : DagRun),
    (∀ x, ¬ stateOf run x = "failed" ∧ ¬ stateOf run x = "running") →
    (∀ x, stateOf run x = "completed" →
      (lookupKV run.results x).isSome = true) →
    ∀ run2 nid msg,
      runSeq g llm run ids =
        (run2, Except.error (DagError.handlerFailure nid msg)) →
      stateOf run2 nid = "failed" ∧
      (∀ x, ¬ x = nid → ¬ stateOf run2 x = "failed" ∧
        ¬ stateOf run2 x = "running") ∧
      (∀ x, stateOf run2 x = "completed" →
        (lookupKV run2.results x).isSome = true) := by
  intro ids
  induction ids with
  | nil =>
    intro run _ _ run2 nid msg h
    simp only [runSeq] at h
    injection h with h1 h2
    exact Except.noConfusion h2
  | cons id rest ih =>
    intro run hg1 hg2 run2 nid msg h
    rcases executeNode_cases g llm run id with
      ⟨run1, r, heq, hst, hres⟩ | ⟨run1, msg1, heq, hst, hres⟩ |
      ⟨e, heq, hne⟩
    · simp only [runSeq, heq] at h
      have hg1' : ∀ x, ¬ stateOf run1 x = "failed" ∧
          ¬ stateOf run1 x = "running" := by
        intro x
        by_cases hx : x = id
        · subst hx
          rw [stateOf_eq, hst, lookupKV_setKV_self]
          simp
        · rw [stateOf_eq, hst, lookupKV_setKV_ne _ _ _ _ hx,
            lookupKV_setKV_ne _ _ _ _ hx]
          have h0 := hg1 x
          rw [stateOf_eq] at h0
          exact h0
      have hg2' : ∀ x, stateOf run1 x = "completed" →
          (lookupKV run1.results x).isSome = true := by
        intro x hx
        by_cases hxid : x = id
        · subst hxid
          rw [hres, lookupKV_setKV_self]
          rfl
        · rw [hres, lookupKV_setKV_ne _ _ _ _ hxid]
          refine hg2 x ?_
          rw [stateOf_eq, hst, lookupKV_setKV_ne _ _ _ _ hxid,
            lookupKV_setKV_ne _ _ _ _ hxid] at hx
          rw [stateOf_eq]
          exact hx
      exact ih run1 hg1' hg2' run2 nid msg h
    · simp only [runSeq, heq] at h
      injection h with h1 h2
      injection h2 with h3
      injection h3 with h4 h5
      subst h4
      subst h1
      refine ⟨?_, ?_, ?_⟩
      · rw [stateOf_eq, hst, lookupKV_setKV_self]
        rfl
      · intro x hx
        rw [stateOf_eq, hst, lookupKV_setKV_ne _ _ _ _ hx,
          lookupKV_setKV_ne _ _ _ _ hx]
        have h0 := hg1 x
        rw [stateOf_eq] at h0
        exact h0
      · intro x hx
        by_cases hxid : x = id
        · subst hxid
          rw [stateOf_eq, hst, lookupKV_setKV_self] at hx
          exact absurd hx (by decide)
        · rw [hres]
          refine hg2 x ?_
          rw [stateOf_eq, hst, lookupKV_setKV_ne _ _ _ _ hxid,
            lookupKV_setKV_ne _ _ _ _ hxid] at hx
          rw [stateOf_eq]
          exact hx
    · simp only [runSeq, heq] at h
      injection h with h1 h2
      injection h2 with h3
      exact absurd h3 (hne nid msg)

theorem lookup_pending (ns : List DagNode) (x : String) :
    (lookupKV (ns.map (fun n => (n.id, "pending"))) x).getD "missing" =
      "pending" ∨
    (lookupKV (ns.map (fun n => (n.id, "pending"))) x).getD "missing" =
      "missing" := by
  induction ns with
  | nil => right; rfl
  | cons n ns ih =>
    rw [List.map_cons, lookupKV_cons]
    by_cases h : n.id = x
    · left
      rw [if_pos h]
      rfl
    · rw [if_neg h]
      exact ih

theorem initRun_state (g : Dag) (x : String) :
    stateOf (initRun g) x = "pending" ∨ stateOf (initRun g) x = "missing" :=
  lookup_pending g.nodes x

/-- C4: if executeDAG fails through a node handler failure, the graph is
marked failed, that node's state is failed, no other node is failed or
left running (nodes after the failure point stay pending), and every node
already completed keeps its committed entry in the results map; the error
itself propagates to the caller instead of a results map. -/
theorem claim_C4_executeDAG_failfast (g : Dag)
    (llm : String → List (String × JSValue) → Except String JSValue)
    (nid msg : String)
    (hrun : (executeDAG g llm).2.2 =
      Except.error (DagError.handlerFailure nid msg)) :
    (executeDAG g llm).2.1 = "failed" ∧
    stateOf (executeDAG g llm).1 nid = "failed" ∧
    (∀ x, ¬ x = nid → ¬ stateOf (executeDAG g llm).1 x = "failed" ∧
      ¬ stateOf (executeDAG g llm).1 x = "running") ∧
    (∀ x, stateOf (executeDAG g llm).1 x = "completed" →
      (lookupKV (executeDAG g llm).1.results x).isSome = true) := by
  rcases hseq : runSeq g llm (initRun g) (topologicalSort g) with ⟨run, res⟩
  cases res with
  | ok u =>
    rw [executeDAG] at hrun
    rw [hseq] at hrun
    exact Except.noConfusion hrun
  | error e =>
    rw [executeDAG] at hrun ⊢
    rw [hseq] at hrun ⊢
    have he : e = DagError.handlerFailure nid msg := by
      injection hrun
    subst he
    have hg1 : ∀ x, ¬ stateOf (initRun g) x = "failed" ∧
        ¬ stateOf (initRun g) x = "running" := by
      intro x
      rcases initRun_state g x with h | h <;> rw [h] <;> simp
    have hg2 : ∀ x, stateOf (initRun g) x = "completed" →
        (lookupKV (initRun g).results x).isSome = true := by
      intro x hx
      rcases initRun_state g x with h | h <;> rw [h] at hx <;>
        exact absurd hx (by decide)
    obtain ⟨c1, c2, c3⟩ := runSeq_failfast g llm (topologicalSort g)
      (initRun g) hg1 hg2 run nid msg hseq
    exact ⟨rfl, c1, c2, c3⟩

theorem claim_C4_executeDAG_failfast_witness :
    (executeDAG failDag gatewayStub).2.1 = "failed" ∧
    stateOf (executeDAG failDag gatewayStub).1 "b" = "failed" := by
  have h := claim_C4_executeDAG_failfast failDag gatewayStub "b" "boom" rfl
  exact ⟨h.1, h.2.1⟩

theorem mem_readyNodes (g : Dag) (completed : List String) (a : String) :
    a ∈ readyNodes g completed ↔
      ∃ n ∈ g.nodes, n.id = a ∧ ¬ a ∈ completed ∧
        ∀ d ∈ n.dependencies, d ∈ completed := by
  rw [readyNodes]
  constructor
  · intro h
    obtain ⟨n, hnf, hna⟩ := List.mem_map.mp h
    obtain ⟨hn, hcond⟩ := List.mem_filter.mp hnf
    obtain ⟨h1, h2⟩ := (Bool.and_eq_true _ _).mp hcond
    refine ⟨n, hn, hna, ?_, ?_⟩
    · rw [hna] at h1
      simpa using h1
    · intro d hd
      have := List.all_eq_true.mp h2 d hd
      simpa using this
  · rintro ⟨n, hn, hna, hnc, hdeps⟩
    refine List.mem_map.mpr ⟨n, List.mem_filter.mpr ⟨hn, ?_⟩, hna⟩
    refine (Bool.and_eq_true _ _).mpr ⟨?_, ?_⟩
    · rw [hna]
      simpa using hnc
    · exact List.all_eq_true.mpr fun d hd => by simpa using hdeps d hd

theorem find?_id_of_nodup (nodes : List DagNode)
    (hnodup : (nodes.map (fun n => n.id)).Nodup) (n : DagNode)
    (hn : n ∈ nodes) :
    nodes.find? (fun m => decide (m.id = n.id)) = some n := by
  induction nodes with
  | nil => cases hn
  | cons m ns ih =>
    rw [List.map_cons, List.nodup_cons] at hnodup
    rcases List.mem_cons.mp hn with h | h
    · subst h
      exact List.find?_cons_of_pos _ (by simp)
    · have hne : ¬ m.id = n.id := by
        intro hc
        exact hnodup.1 (hc ▸ List.mem_map.mpr ⟨n, h, rfl⟩)
      rw [List.find?_cons_of_neg _ (by simpa using hne)]
      exact ih hnodup.2 h

theorem runSeq_all_ok (g : Dag)
    (llm : String → List (String × JSValue) → Except String JSValue)
    (hOK : ∀ n ∈ g.nodes, ∀ inputs, (nodeBody llm n inputs).isOk = true) :
    ∀ (ids : List String) (run : DagRun),
    (∀ a ∈ ids, ∃ n, g.nodes.find? (fun m => decide (m.id = a)) = some n ∧
      ∀ d ∈ n.dependencies, stateOf run d = "completed") →
    ∃ run1, runSeq g llm run ids = (run1, Except.ok ()) ∧
      (∀ x, stateOf run x = "completed" → stateOf run1 x = "completed") ∧
      (∀ a ∈ ids, stateOf run1 a = "completed") := by
  intro ids
  induction ids with
  | nil =>
    intro run _
    exact ⟨run, rfl, fun x h => h, fun a ha => absurd ha
      (List.not_mem_nil a)⟩
  | cons a rest ih =>
    intro run hyp
    obtain ⟨n, hfind, hdeps⟩ := hyp a (List.mem_cons_self _ _)
    have hnmem : n ∈ g.nodes := List.mem_of_find?_eq_some hfind
    obtain ⟨r, heq⟩ := executeNode_ok_of g llm run a n hfind hdeps
      (hOK n hnmem)
    have hstate : ∀ x, stateOf (DagRun.mk
        (setKV (setKV run.states a "running") a "completed")
        (setKV run.results a r)) x =
          if x = a then "completed" else stateOf run x := by
      intro x
      by_cases hx : x = a
      · subst hx
        rw [if_pos rfl, stateOf_eq]
        show (lookupKV (setKV (setKV run.states x "running") x
          "completed") x).getD "missing" = _
        rw [lookupKV_setKV_self]
        rfl
      · rw [if_neg hx, stateOf_eq, stateOf_eq]
        show (lookupKV (setKV (setKV run.states a "running") a
          "completed") x).getD "missing" = _
        rw [lookupKV_setKV_ne _ _ _ _ hx, lookupKV_setKV_ne _ _ _ _ hx]
    have hyp1 : ∀ b ∈ rest, ∃ nb, g.nodes.find?
        (fun m => decide (m.id = b)) = some nb ∧
        ∀ d ∈ nb.dependencies, stateOf (DagRun.mk
          (setKV (setKV run.states a "running") a "completed")
          (setKV run.results a r)) d = "completed" := by
      intro b hb
      obtain ⟨nb, hnbf, hnbdeps⟩ := hyp b (List.mem_cons_of_mem _ hb)
      refine ⟨nb, hnbf, ?_⟩
      intro d hd
      rw [hstate]
      by_cases hda : d = a
      · rw [if_pos hda]
      · rw [if_neg hda]
        exact hnbdeps d hd
    obtain ⟨run1, hrs, hmono, hnew⟩ := ih (DagRun.mk
        (setKV (setKV run.states a "running") a "completed")
        (setKV run.results a r)) hyp1
    refine ⟨run1, ?_, ?_, ?_⟩
    · simp only [runSeq, heq]
      exact hrs
    · intro x hx
      refine hmono x ?_
      rw [hstate]
      by_cases hxa : x = a
      · rw [if_pos hxa]
      · rw [if_neg hxa]
        exact hx
    · intro b hb
      rcases List.mem_cons.mp hb with h | h
      · subst h
        refine hmono b ?_
        rw [hstate]
        rw [if_pos rfl]
      · exact hnew b h

theorem completed_card_lt (g : Dag)
    (hnodup : (g.nodes.map (fun n => n.id)).Nodup)
    (S : List String) (hSne : S ≠ [])
    (hSsub : ∀ a ∈ S, ∃ n ∈ g.nodes, n.id = a)
    (completed : List String)
    (hI2 : ∀ a ∈ completed, ∃ n ∈ g.nodes, n.id = a)
    (hI3 : ∀ a ∈ S, a ∉ completed) :
    completed.toFinset.card < g.nodes.length := by
  obtain ⟨s, hs⟩ := List.exists_mem_of_ne_nil S hSne
  obtain ⟨ns, hns, hnsid⟩ := hSsub s hs
  have hsubset : completed.toFinset ⊆
      (g.nodes.map (fun n => n.id)).toFinset := by
    intro x hx
    rw [List.mem_toFinset] at hx ⊢
    obtain ⟨n, hn, hnid⟩ := hI2 x hx
    exact List.mem_map.mpr ⟨n, hn, hnid⟩
  have hstrict : completed.toFinset ⊂
      (g.nodes.map (fun n => n.id)).toFinset := by
    refine ⟨hsubset, ?_⟩
    intro hcontra
    have hsmem : s ∈ (g.nodes.map (fun n => n.id)).toFinset := by
      rw [List.mem_toFinset]
      exact List.mem_map.mpr ⟨ns, hns, hnsid⟩
    have : s ∈ completed.toFinset := hcontra hsmem
    exact hI3 s hs (List.mem_toFinset.mp this)
  have hcard := Finset.card_lt_card hstrict
  rwa [List.toFinset_card_of_nodup hnodup, List.length_map] at hcard

theorem runWaves_cyclic (g : Dag)
    (llm : String → List (String × JSValue) → Except String JSValue)
    (hnodup : (g.nodes.map (fun n => n.id)).Nodup)
    (hOK : ∀ n ∈ g.nodes, ∀ inputs, (nodeBody llm n inputs).isOk = true)
    (S : List String) (hSne : S ≠ [])
    (hSsub : ∀ a ∈ S, ∃ n ∈ g.nodes, n.id = a)
    (hcyc : ∀ n ∈ g.nodes, n.id ∈ S → ∃ d ∈ n.dependencies, d ∈ S) :
    ∀ (N : Nat) (completed : List String) (run : DagRun),
      g.nodes.length - completed.toFinset.card ≤ N →
      (∀ a ∈ completed, stateOf run a = "completed") →
      (∀ a ∈ completed, ∃ n ∈ g.nodes, n.id = a) →
      (∀ a ∈ S, a ∉ completed) →
      (runWaves g llm run completed).2 =
        Except.error DagError.cyclicDependency := by
  intro N
  induction N with
  | zero =>
    intro completed run hN hI1 hI2 hI3
    have hlt := completed_card_lt g hnodup S hSne hSsub completed hI2 hI3
    omega
  | succ N ih =>
    intro completed run hN hI1 hI2 hI3
    have hlt := completed_card_lt g hnodup S hSne hSsub completed hI2 hI3
    have hguard : completed.dedup.length < g.nodes.length := by
      rw [← List.card_toFinset]
      exact hlt
    rw [runWaves, dif_pos hguard]
    by_cases hready : readyNodes g completed = []
    · rw [dif_pos hready]
    · rw [dif_neg hready]
      have hreadyS : ∀ a ∈ readyNodes g completed, a ∉ S := by
        intro a ha haS
        obtain ⟨n, hn, hna, hnc, hdeps⟩ :=
          (mem_readyNodes g completed a).mp ha
        obtain ⟨d, hd, hdS⟩ := hcyc n hn (hna ▸ haS)
        exact hI3 d hdS (hdeps d hd)
      have hhyp : ∀ a ∈ readyNodes g completed, ∃ n,
          g.nodes.find? (fun m => decide (m.id = a)) = some n ∧
          ∀ d ∈ n.dependencies, stateOf run d = "completed" := by
        intro a ha
        obtain ⟨n, hn, hna, hnc, hdeps⟩ :=
          (mem_readyNodes g completed a).mp ha
        refine ⟨n, ?_, ?_⟩
        · have h0 := find?_id_of_nodup g.nodes hnodup n hn
          rw [hna] at h0
          exact h0
        · intro d hd
          exact hI1 d (hdeps d hd)
      obtain ⟨run1, hrs, hmono, hnew⟩ :=
        runSeq_all_ok g llm hOK (readyNodes g completed) run hhyp
      rw [hrs]
      show (runWaves g llm run1 (completed ++ readyNodes g completed)).2 = _
      obtain ⟨r, hrmem⟩ := List.exists_mem_of_ne_nil _ hready
      have hrnew : r ∉ completed :=
        ((mem_readyNodes g completed r).mp hrmem).choose_spec.2.2.1
      refine ih (completed ++ readyNodes g completed) run1 ?_ ?_ ?_ ?_
      · have hsub : completed.toFinset ⊂
            (completed ++ readyNodes g completed).toFinset := by
          constructor
          · intro x hx
            rw [List.mem_toFinset] at hx ⊢
            exact List.mem_append_left _ hx
          · intro hcontra
            have : r ∈ completed.toFinset := hcontra (by
              rw [List.mem_toFinset]
              exact List.mem_append_right _ hrmem)
            exact hrnew (List.mem_toFinset.mp this)
        have hcard := Finset.card_lt_card hsub
        omega
      · intro a ha
        rcases List.mem_append.mp ha with h | h
        · exact hmono a (hI1 a h)
        · exact hnew a h
      · intro a ha
        rcases List.mem_append.mp ha with h | h
        · exact hI2 a h
        · obtain ⟨n, hn, hna, _, _⟩ := (mem_readyNodes g completed a).mp h
          exact ⟨n, hn, hna⟩
      · intro a haS hmem
        rcases List.mem_append.mp hmem with h | h
        · exact hI3 a haS h
        · exact hreadyS a h haS

/-- C3: a graph with a dependency cycle among its nodes — formalised as a
non-empty set S of node ids each of which depends on another member of S,
covering both cycles and nodes that can never become ready — makes
parallel-wave execution terminate (runWaves is total) with the
circular-dependencies error, raised at the point where no node is ready
and none is in flight.  Node bodies are assumed not to fail, since a
handler failure would abort the run earlier with a handler error (the
fail-fast behaviour of C4). -/
theorem claim_C3_executeParallel_cyclic (g : Dag)
    (llm : String → List (String × JSValue) → Except String JSValue)
    (hnodup : (g.nodes.map (fun n => n.id)).Nodup)
    (hOK : ∀ n ∈ g.nodes, ∀ inputs, (nodeBody llm n inputs).isOk = true)
    (S : List String) (hSne : S ≠ [])
    (hSsub : ∀ a ∈ S, ∃ n ∈ g.nodes, n.id = a)
    (hcyc : ∀ n ∈ g.nodes, n.id ∈ S → ∃ d ∈ n.dependencies, d ∈ S)
    (run : DagRun) :
    (executeParallel g llm run).2 =
      Except.error DagError.cyclicDependency :=
  runWaves_cyclic g llm hnodup hOK S hSne hSsub hcyc g.nodes.length [] run
    (by simp)
    (fun a ha => absurd ha (List.not_mem_nil a))
    (fun a ha => absurd ha (List.not_mem_nil a))
    (fun a _ => List.not_mem_nil a)

theorem claim_C3_executeParallel_cyclic_witness :
    (executeParallel cycDag gatewayStub (initRun cycDag)).2 =
      Except.error DagError.cyclicDependency := by
  refine claim_C3_executeParallel_cyclic cycDag gatewayStub
    (by decide) ?_ ["a", "b"] (by decide) ?_ ?_ (initRun cycDag)
  · intro n hn inputs
    rcases List.mem_cons.mp hn with h | h
    · subst h; rfl
    · rcases List.mem_cons.mp h with h2 | h2
      · subst h2; rfl
      · exact absurd h2 (List.not_mem_nil n)
  · intro a ha
    rcases List.mem_cons.mp ha with h | h
    · subst h
      exact ⟨cycNode "a" "b", List.mem_cons_self _ _, rfl⟩
    · rcases List.mem_cons.mp h with h2 | h2
      · subst h2
        exact ⟨cycNode "b" "a",
          List.mem_cons_of_mem _ (List.mem_cons_self _ _), rfl⟩
      · exact absurd h2 (List.not_mem_nil a)
  · intro n hn hS
    rcases List.mem_cons.mp hn with h | h
    · subst h
      exact ⟨"b", List.mem_cons_self _ _, by decide⟩
    · rcases List.mem_cons.mp h with h2 | h2
      · subst h2
        exact ⟨"a", List.mem_cons_self _ _, by decide⟩
      · exact absurd h2 (List.not_mem_nil n)

theorem promiseAll_error {E A : Type} (l : List (Except E A))
    (h : ∃ x ∈ l, ∃ e0, x = Except.error e0) :
    ∃ e1, promiseAll l = Except.error e1 := by
  induction l with
  | nil =>
    obtain ⟨x, hx, _⟩ := h
    exact absurd hx (List.not_mem_nil x)
  | cons x xs ih =>
    cases hx : x with
    | error e0 => exact ⟨e0, by simp [promiseAll, hx]⟩
    | ok a =>
      obtain ⟨y, hy, e0, hy0⟩ := h
      rcases List.mem_cons.mp hy with h1 | h1
      · rw [h1, hx] at hy0
        exact Except.noConfusion hy0
      · obtain ⟨e1, he1⟩ := ih ⟨y, h1, e0, hy0⟩
        refine ⟨e1, ?_⟩
        simp [promiseAll, hx, he1, Except.map]

/-- C5: a single agent failure aborts the whole dispatch, whichever agent
fails and whichever topology routes the task.  Mesh (and the default
branch of the switch): one failing agent makes the dispatch end in the
error state with an error instead of a consensus over the remaining
agents — no exclusion from the vote pool, no recomputed total.  Star: a
failing spoke, and likewise the hub failing on the aggregate task over
the collected spoke results, aborts the dispatch.  Hierarchical: the
coordinator failing on the decompose task, a worker failing on its
assigned subtask, and the coordinator failing on the synthesize task over
the collected worker results each abort the dispatch. -/
theorem claim_C5_dispatch_failure {V : Type} [DecidableEq V] (s : Swarm)
    (exec : SwarmAgent → V → Except String V)
    (mkDecompose : V → V) (subtasksOf : V → Option (List V))
    (mkSynthesize : List V → V) (mkAggregate : List V → V) (task : V)
    (e : String) :
    ((¬ s.topology = "hierarchical") → (¬ s.topology = "star") →
      (∃ a ∈ s.agents, exec a task = Except.error e) →
      (executeTask s exec mkDecompose subtasksOf mkSynthesize mkAggregate
          task).1 = "error" ∧
      (executeTask s exec mkDecompose subtasksOf mkSynthesize mkAggregate
          task).2.isOk = false) ∧
    (s.topology = "star" → ∀ hub, hubOf s = some hub →
      (∃ a ∈ s.agents.filter (fun b => !decide (b.id = hub.id)),
        exec a task = Except.error e) →
      (executeTask s exec mkDecompose subtasksOf mkSynthesize mkAggregate
          task).1 = "error" ∧
      (executeTask s exec mkDecompose subtasksOf mkSynthesize mkAggregate
          task).2.isOk = false) ∧
    (s.topology = "star" → ∀ hub, hubOf s = some hub →
      ∀ rs, promiseAll ((s.agents.filter (fun b =>
          !decide (b.id = hub.id))).map (fun b => exec b task)) =
        Except.ok rs →
      exec hub (mkAggregate rs) = Except.error e →
      executeTask s exec mkDecompose subtasksOf mkSynthesize mkAggregate
          task = ("error", Except.error e)) ∧
    (s.topology = "hierarchical" → ∀ coord, hubOf s = some coord →
      exec coord (mkDecompose task) = Except.error e →
      executeTask s exec mkDecompose subtasksOf mkSynthesize mkAggregate
          task = ("error", Except.error e)) ∧
    (s.topology = "hierarchical" → ∀ coord, hubOf s = some coord →
      ∀ decomposed, exec coord (mkDecompose task) = Except.ok decomposed →
      (∃ p ∈ ((subtasksOf decomposed).getD [task]).enum, ∃ w,
        (s.agents.filter (fun a => !decide (a.id = coord.id))).get?
          (p.1 % (s.agents.filter (fun a =>
            !decide (a.id = coord.id))).length) = some w ∧
        exec w p.2 = Except.error e) →
      (executeTask s exec mkDecompose subtasksOf mkSynthesize mkAggregate
          task).1 = "error" ∧
      (executeTask s exec mkDecompose subtasksOf mkSynthesize mkAggregate
          task).2.isOk = false) ∧
    (s.topology = "hierarchical" → ∀ coord, hubOf s = some coord →
      ∀ decomposed, exec coord (mkDecompose task) = Except.ok decomposed →
      ∀ rs, promiseAll ((((subtasksOf decomposed).getD [task]).enum).map
          (fun p =>
            ((s.agents.filter (fun a =>
                !decide (a.id = coord.id))).get?
                (p.1 % (s.agents.filter (fun a =>
                  !decide (a.id = coord.id))).length)).elim
              (Except.error "TypeError: no workers")
              (fun w => exec w p.2))) = Except.ok rs →
      exec coord (mkSynthesize rs) = Except.error e →
      executeTask s exec mkDecompose subtasksOf mkSynthesize mkAggregate
          task = ("error", Except.error e)) := by
  refine ⟨?_, ?_, ?_, ?_, ?_, ?_⟩
  · intro hh hs hfail
    obtain ⟨a, ha, hae⟩ := hfail
    obtain ⟨e1, he1⟩ := promiseAll_error (s.agents.map (fun b => exec b task))
      ⟨exec a task, List.mem_map.mpr ⟨a, ha, rfl⟩, e, hae⟩
    have hmesh : executeMesh s exec task = Except.error e1 := by
      rw [executeMesh, he1]
      rfl
    rw [executeTask, if_neg hh, if_neg hs, hmesh]
    exact ⟨rfl, rfl⟩
  · intro hs hub hhub hfail
    obtain ⟨a, ha, hae⟩ := hfail
    obtain ⟨e1, he1⟩ := promiseAll_error
      ((s.agents.filter (fun b => !decide (b.id = hub.id))).map
        (fun b => exec b task))
      ⟨exec a task, List.mem_map.mpr ⟨a, ha, rfl⟩, e, hae⟩
    have hstar : executeStar s exec mkAggregate task =
        Except.error e1 := by
      simp only [executeStar, hhub]
      rw [he1]
      rfl
    rw [executeTask, if_neg (by rw [hs]; decide), if_pos hs, hstar]
    exact ⟨rfl, rfl⟩
  · intro hs hub hhub rs hrs hfail
    have hstar : executeStar s exec mkAggregate task =
        Except.error e := by
      simp only [executeStar, hhub]
      rw [hrs]
      exact hfail
    rw [executeTask, if_neg (by rw [hs]; decide), if_pos hs, hstar]
    rfl
  · intro hh coord hcoord hfail
    have hhier : executeHierarchical s exec mkDecompose subtasksOf
        mkSynthesize task = Except.error e := by
      simp only [executeHierarchical, hcoord]
      rw [hfail]
      rfl
    rw [executeTask, if_pos hh, hhier]
    rfl
  · intro hh coord hcoord decomposed hdec hfail
    obtain ⟨p, hp, w, hget, hwe⟩ := hfail
    have hfp : ((s.agents.filter (fun a =>
        !decide (a.id = coord.id))).get?
        (p.1 % (s.agents.filter (fun a =>
          !decide (a.id = coord.id))).length)).elim
        (Except.error "TypeError: no workers")
        (fun w => exec w p.2) = Except.error e := by
      rw [hget]
      exact hwe
    obtain ⟨e1, he1⟩ := promiseAll_error
      ((((subtasksOf decomposed).getD [task]).enum).map
        (fun p =>
          ((s.agents.filter (fun a =>
              !decide (a.id = coord.id))).get?
              (p.1 % (s.agents.filter (fun a =>
                !decide (a.id = coord.id))).length)).elim
            (Except.error "TypeError: no workers")
            (fun w => exec w p.2)))
      ⟨_, List.mem_map.mpr ⟨p, hp, rfl⟩, e, hfp⟩
    have hhier : executeHierarchical s exec mkDecompose subtasksOf
        mkSynthesize task = Except.error e1 := by
      simp only [executeHierarchical, hcoord, hdec, Except.bind]
      rw [he1]
    rw [executeTask, if_pos hh, hhier]
    exact ⟨rfl, rfl⟩
  · intro hh coord hcoord decomposed hdec rs hall hfail
    have hhier : executeHierarchical s exec mkDecompose subtasksOf
        mkSynthesize task = Except.error e := by
      simp only [executeHierarchical, hcoord, hdec, Except.bind]
      rw [hall]
      exact hfail
    rw [executeTask, if_pos hh, hhier]
    rfl

theorem claim_C5_dispatch_failure_witness :
    ((executeTask meshSwarmXY execYFails id (fun _ => none)
        (fun _ => "syn") (fun _ => "agg") "task").1 = "error" ∧
     (executeTask meshSwarmXY execYFails id (fun _ => none)
        (fun _ => "syn") (fun _ => "agg") "task").2.isOk = false) ∧
    ((executeTask starSwarmXY execYFails id (fun _ => none)
        (fun _ => "syn") (fun _ => "agg") "task").1 = "error" ∧
     (executeTask starSwarmXY execYFails id (fun _ => none)
        (fun _ => "syn") (fun _ => "agg") "task").2.isOk = false) ∧
    (executeTask starSwarmXY execAggFails id (fun _ => none)
        (fun _ => "syn") (fun _ => "agg") "task" =
      ("error", Except.error "hub agg down")) ∧
    (executeTask hierSwarmCW execDecFails (fun _ => "dec")
        (fun _ => some ["s1"]) (fun _ => "syn") (fun _ => "agg") "task" =
      ("error", Except.error "decompose down")) ∧
    ((executeTask hierSwarmCW execWFails (fun _ => "dec")
        (fun _ => some ["s1"]) (fun _ => "syn") (fun _ => "agg")
        "task").1 = "error" ∧
     (executeTask hierSwarmCW execWFails (fun _ => "dec")
        (fun _ => some ["s1"]) (fun _ => "syn") (fun _ => "agg")
        "task").2.isOk = false) ∧
    (executeTask hierSwarmCW execSynFails (fun _ => "dec")
        (fun _ => some ["s1"]) (fun _ => "syn") (fun _ => "agg") "task" =
      ("error", Except.error "synth down")) :=
  ⟨(claim_C5_dispatch_failure meshSwarmXY execYFails id (fun _ => none)
      (fun _ => "syn") (fun _ => "agg") "task" "agent y down").1
    (by decide) (by decide)
    ⟨⟨"y", "r", []⟩, List.mem_cons_of_mem _ (List.mem_cons_self _ _), rfl⟩,
   (claim_C5_dispatch_failure starSwarmXY execYFails id (fun _ => none)
      (fun _ => "syn") (fun _ => "agg") "task" "agent y down").2.1
    rfl ⟨"x", "r", []⟩ rfl
    ⟨⟨"y", "r", []⟩, by decide, rfl⟩,
   (claim_C5_dispatch_failure starSwarmXY execAggFails id (fun _ => none)
      (fun _ => "syn") (fun _ => "agg") "task" "hub agg down").2.2.1
    rfl ⟨"x", "r", []⟩ rfl ["task"] rfl rfl,
   (claim_C5_dispatch_failure hierSwarmCW execDecFails (fun _ => "dec")
      (fun _ => some ["s1"]) (fun _ => "syn") (fun _ => "agg") "task"
      "decompose down").2.2.2.1
    rfl ⟨"c", "r", []⟩ rfl rfl,
   (claim_C5_dispatch_failure hierSwarmCW execWFails (fun _ => "dec")
      (fun _ => some ["s1"]) (fun _ => "syn") (fun _ => "agg") "task"
      "worker down").2.2.2.2.1
    rfl ⟨"c", "r", []⟩ rfl "dec" rfl
    ⟨(0, "s1"), by decide, ⟨"w", "r", []⟩, rfl, rfl⟩,
   (claim_C5_dispatch_failure hierSwarmCW execSynFails (fun _ => "dec")
      (fun _ => some ["s1"]) (fun _ => "syn") (fun _ => "agg") "task"
      "synth down").2.2.2.2.2
    rfl ⟨"c", "r", []⟩ rfl "dec" rfl ["s1"] rfl rfl⟩

theorem binarySearchGo_comparisons (arr : Array Int) (target : Int) :
    ∀ (n : Nat), ∀ l r1 c, r1 - l = n →
    (binarySearchGo arr target l r1 c).comparisons ≤
      c + (if r1 ≤ l then 0 else Nat.log 2 (r1 - l) + 1) := by
  intro n
  induction n using Nat.strong_induction_on with
  | _ n ih =>
    intro l r1 c hn
    rw [binarySearchGo]
    by_cases h : l < r1
    · rw [dif_pos h]
      have hnle : ¬ r1 ≤ l := by omega
      rw [if_neg hnle]
      by_cases heq : arr.getD ((l + r1 - 1) / 2) 0 = target
      · rw [if_pos heq]
        simp only
        omega
      · rw [if_neg heq]
        by_cases hlt : arr.getD ((l + r1 - 1) / 2) 0 < target
        · rw [if_pos hlt]
          have hrec := ih (r1 - ((l + r1 - 1) / 2 + 1)) (by omega)
            ((l + r1 - 1) / 2 + 1) r1 (c + 1) rfl
          refine le_trans hrec ?_
          by_cases hdone : r1 ≤ (l + r1 - 1) / 2 + 1
          · rw [if_pos hdone]
            omega
          · rw [if_neg hdone]
            have hhalf : r1 - ((l + r1 - 1) / 2 + 1) ≤ (r1 - l) / 2 := by
              omega
            have hmono : Nat.log 2 (r1 - ((l + r1 - 1) / 2 + 1)) ≤
                Nat.log 2 ((r1 - l) / 2) :=
              Nat.log_mono_right hhalf
            have hdiv : Nat.log 2 ((r1 - l) / 2) =
                Nat.log 2 (r1 - l) - 1 := Nat.log_div_base _ _
            have hpos : 0 < Nat.log 2 (r1 - l) :=
              Nat.log_pos (by omega) (by omega)
            omega
        · rw [if_neg hlt]
          have hrec := ih ((l + r1 - 1) / 2 - l) (by omega)
            l ((l + r1 - 1) / 2) (c + 1) rfl
          refine le_trans hrec ?_
          by_cases hdone : (l + r1 - 1) / 2 ≤ l
          · rw [if_pos hdone]
            omega
          · rw [if_neg hdone]
            have hhalf : (l + r1 - 1) / 2 - l ≤ (r1 - l) / 2 := by
              omega
            have hmono : Nat.log 2 ((l + r1 - 1) / 2 - l) ≤
                Nat.log 2 ((r1 - l) / 2) :=
              Nat.log_mono_right hhalf
            have hdiv : Nat.log 2 ((r1 - l) / 2) =
                Nat.log 2 (r1 - l) - 1 := Nat.log_div_base _ _
            have hpos : 0 < Nat.log 2 (r1 - l) :=
              Nat.log_pos (by omega) (by omega)
            omega
    · rw [dif_neg h]
      simp only
      omega

theorem binarySearchGo_found (arr : Array Int) (target : Int)
    (hsorted : ∀ j, j < arr.size → ∀ i, i ≤ j →
      arr.getD i 0 ≤ arr.getD j 0) :
    ∀ (n : Nat), ∀ l r1 c, r1 - l = n → r1 ≤ arr.size →
    (∃ i, l ≤ i ∧ i < r1 ∧ arr.getD i 0 = target) →
    (binarySearchGo arr target l r1 c).found = true ∧
    ∃ j : Nat, (binarySearchGo arr target l r1 c).index = (j : Int) ∧
      j < arr.size ∧ arr.getD j 0 = target := by
  intro n
  induction n using Nat.strong_induction_on with
  | _ n ih =>
    intro l r1 c hn hsize hex
    obtain ⟨i, hli, hir, hit⟩ := hex
    have h : l < r1 := by omega
    rw [binarySearchGo, dif_pos h]
    by_cases heq : arr.getD ((l + r1 - 1) / 2) 0 = target
    · rw [if_pos heq]
      exact ⟨rfl, (l + r1 - 1) / 2, rfl, by omega, heq⟩
    · rw [if_neg heq]
      by_cases hlt : arr.getD ((l + r1 - 1) / 2) 0 < target
      · rw [if_pos hlt]
        refine ih (r1 - ((l + r1 - 1) / 2 + 1)) (by omega)
          ((l + r1 - 1) / 2 + 1) r1 (c + 1) rfl hsize ⟨i, ?_, hir, hit⟩
        by_cases hcmp : i ≤ (l + r1 - 1) / 2
        · exfalso
          have := hsorted ((l + r1 - 1) / 2) (by omega) i hcmp
          omega
        · omega
      · rw [if_neg hlt]
        have hgt : target < arr.getD ((l + r1 - 1) / 2) 0 := by
          omega
        refine ih ((l + r1 - 1) / 2 - l) (by omega)
          l ((l + r1 - 1) / 2) (c + 1) rfl (by omega) ⟨i, hli, ?_, hit⟩
        by_cases hcmp : (l + r1 - 1) / 2 ≤ i
        · exfalso
          have := hsorted i (by omega) ((l + r1 - 1) / 2) hcmp
          omega
        · omega

/-- C9: over a sorted array of n elements, binarySearch reports at most
ceil(log2 n) + 1 comparisons, and when the target is present it returns
found with an index holding an element equal to the target. -/
theorem claim_C9_binarySearch (arr : Array Int) (target : Int)
    (hsorted : ∀ j, j < arr.size → ∀ i, i ≤ j →
      arr.getD i 0 ≤ arr.getD j 0) :
    (binarySearch arr target).comparisons ≤ Nat.clog 2 arr.size + 1 ∧
    ((∃ i, i < arr.size ∧ arr.getD i 0 = target) →
      (binarySearch arr target).found = true ∧
      ∃ j : Nat, (binarySearch arr target).index = (j : Int) ∧ j < arr.size ∧
        arr.getD j 0 = target) := by
  constructor
  · have hb := binarySearchGo_comparisons arr target (arr.size - 0)
      0 arr.size 0 rfl
    refine le_trans hb ?_
    by_cases hsz : arr.size ≤ 0
    · rw [if_pos hsz]
      omega
    · rw [if_neg hsz]
      have hlog : Nat.log 2 arr.size ≤ Nat.clog 2 arr.size := by
        have h1 : 2 ^ Nat.log 2 arr.size ≤ arr.size :=
          Nat.pow_log_le_self 2 (by omega)
        have h2 : arr.size ≤ 2 ^ Nat.clog 2 arr.size :=
          Nat.le_pow_clog (by omega) _
        exact (Nat.pow_le_pow_iff_right (by omega)).mp (le_trans h1 h2)
      have : arr.size - 0 = arr.size := by omega
      rw [this]
      omega
  · intro hex
    obtain ⟨i, hi, hit⟩ := hex
    exact binarySearchGo_found arr target hsorted (arr.size - 0)
      0 arr.size 0 rfl (le_refl _) ⟨i, Nat.zero_le i, hi, hit⟩

theorem claim_C9_binarySearch_witness :
    (binarySearch #[1, 3, 5] 3).comparisons ≤ Nat.clog 2 3 + 1 ∧
    (binarySearch #[1, 3, 5] 3).found = true := by
  have h := claim_C9_binarySearch #[1, 3, 5] 3 (by decide)
  exact ⟨h.1, (h.2 ⟨1, by decide, rfl⟩).1⟩

theorem count_le_cmsCell (data : List (List Nat)) (item : List Nat)
    (i : Nat) :
    data.count item ≤ cmsCell data i (cmsHash item (i * 31)) := by
  induction data with
  | nil => simp [cmsCell]
  | cons y ys ih =>
    rw [List.count_cons, cmsCell, List.filter_cons]
    by_cases hy : y = item
    · subst hy
      rw [if_pos (by simp)]
      rw [if_pos (by simp)]
      simp only [List.length_cons]
      have hc : cmsCell ys i (cmsHash y (i * 31)) =
          (ys.filter (fun z => decide (cmsHash z (i * 31) =
            cmsHash y (i * 31)))).length := rfl
      omega
    · have hbeq : (y == item) = false := by
        simp [hy]
      simp only [hbeq, Bool.false_eq_true, if_false, Nat.add_zero]
      by_cases hh : cmsHash y (i * 31) = cmsHash item (i * 31)
      · rw [if_pos (by simp [hh])]
        simp only [List.length_cons]
        have hc : cmsCell ys i (cmsHash item (i * 31)) =
            (ys.filter (fun z => decide (cmsHash z (i * 31) =
              cmsHash item (i * 31)))).length := rfl
        omega
      · rw [if_neg (by simp [hh])]
        have hc : cmsCell ys i (cmsHash item (i * 31)) =
            (ys.filter (fun z => decide (cmsHash z (i * 31) =
              cmsHash item (i * 31)))).length := rfl
        omega

theorem le_foldl_min {c : WithTop Nat} (f : Nat → WithTop Nat) :
    ∀ (is : List Nat) (acc : WithTop Nat), c ≤ acc →
      (∀ i ∈ is, c ≤ f i) →
      c ≤ is.foldl (fun m i => min m (f i)) acc := by
  intro is
  induction is with
  | nil => intro acc hacc _; exact hacc
  | cons i is ih =>
    intro acc hacc hall
    rw [List.foldl_cons]
    refine ih _ ?_ (fun j hj => hall j (List.mem_cons_of_mem _ hj))
    exact le_min hacc (hall i (List.mem_cons_self _ _))

/-- C10: the point-frequency query of the count-min sketch never
underestimates — for every data list and item, the minimum over the seven
rows of the hashed counters is at least the item's true number of
occurrences in the data. -/
theorem claim_C10_countMinSketch_no_underestimate
    (data : List (List Nat)) (item : List Nat) :
    (data.count item : WithTop Nat) ≤ cmsQuery data item := by
  rw [cmsQuery]
  refine le_foldl_min _ (List.range cmsDepth) ⊤ le_top ?_
  intro i _
  exact_mod_cast count_le_cmsCell data item i
